import Mathlib

/-!
Verification development for the incremental time-series cache of the
konnektaro finance backend.

The shallow embedding below translates:
* `src/src/utils/yahooRetry.ts` (`isRateLimitError`, `executeWithRetry`),
* the yahoo chart repository (`updateRange`, `insertPoints`, `getPoints`,
  `getStoredRange`, `initializeSeriesRange`),
* the chart cache service (`acquireBackfillLock`, `releaseBackfillLock`,
  `checkNoOlderData`, `setNoOlderData`, `mergePoints`, `getChartData`).

Calendar dates are modelled as `Int` days since the Unix epoch (the code
normalizes all inputs with `getDateOnly`, strips times, and compares Date
objects by their numeric value, so a date is just an integer day here;
`addDays d k` is `d + k`, and the JavaScript coercion of a `null` Date
operand to the number `0` is reproduced explicitly at the two places the
source performs it).  External effects (SQL store, Redis, the upstream
provider) are modelled by a `World` record threaded through an explicit
state-and-exception monad `EStep`; fault-injection streams let theorems
quantify over store/lock-store outages, and an event trace records every
upstream fetch, lock acquisition, and lock release.
-/

set_option maxHeartbeats 1000000

namespace YahooCache

/-- A calendar date, as a number of days since the Unix epoch. -/
abbrev Day := Int

/-- One chart point: a trade date and a nullable closing value
(`close` of the source; the numeric value is modelled as an `Int`). -/
structure Point where
  date : Day
  close : Option Int
deriving DecidableEq

/-- Errors that a cache operation can raise: a persistence (SQL) failure,
or an upstream provider failure (indexed so distinct upstream errors can be
distinguished). -/
inductive Err where
  | store : Err
  | upstream : Nat → Err
deriving DecidableEq

/-- Observable external events of one resolution call: an upstream chart
fetch for an inclusive day range, a backfill-lock acquisition attempt
(recording the boolean the caller received), and a lock release. -/
inductive Ev where
  | fetch : Day → Day → Ev
  | acq : Bool → Ev
  | rel : Ev
deriving DecidableEq

/-- Holds (as `true`) exactly on `Ev.fetch` events. -/
def isFetchEv : Ev → Bool
  | Ev.fetch _ _ => true
  | _ => false

/-- Holds (as `true`) exactly on granted acquisitions (`Ev.acq true`). -/
def isGrantEv : Ev → Bool
  | Ev.acq true => true
  | _ => false

/-- Holds (as `true`) exactly on `Ev.rel` events. -/
def isRelEv : Ev → Bool
  | Ev.rel => true
  | _ => false

/-- Number of granted lock acquisitions in a trace. -/
def grantCount (t : List Ev) : Nat := t.countP isGrantEv

/-- Number of lock releases in a trace. -/
def relCount (t : List Ev) : Nat := t.countP isRelEv

/-- Ordering of points by trade date (the comparator
`(a, b) => a.date.getTime() - b.date.getTime()` of the source). -/
def ptLE (a b : Point) : Prop := a.date ≤ b.date

instance : DecidableRel ptLE := fun a b => inferInstanceAs (Decidable (a.date ≤ b.date))

instance : IsTotal Point ptLE := ⟨fun a b => Int.le_total a.date b.date⟩

instance : IsTrans Point ptLE := ⟨fun _ _ _ h1 h2 => le_trans h1 h2⟩

/-- Sorting a point list ascending by date (`Array.sort` by date in the
source, `ORDER BY trade_date ASC` in the repository). -/
def sortByDate (l : List Point) : List Point := l.insertionSort ptLE

/-- The dates occurring in a point list. -/
def keys (l : List Point) : List Day := l.map Point.date

/-- The one-row-per-date uniqueness of the points table / the JS `Map`. -/
def keysNodup (l : List Point) : Prop := (keys l).Nodup

/-- The `Map.set` of the source's `mergePoints`, and the
`ON CONFLICT ... DO UPDATE SET close = EXCLUDED.close` upsert of
`insertPoints`: replace the entry holding this date, else append. -/
def mapSet : List Point → Point → List Point
  | [], p => [p]
  | q :: qs, p => if q.date = p.date then p :: qs else q :: mapSet qs p

/-- The source's `mergePoints`: key every existing point by date, overwrite
with the new points (newly fetched values win on a date collision), then
sort the values ascending by date. -/
def mergePoints (existing newPoints : List Point) : List Point :=
  sortByDate (newPoints.foldl mapSet (existing.foldl mapSet []))

/-- The source's `sanitizeQuotes`: a raw upstream entry is `none` when the
entry is null or its date fails to parse, and such entries are dropped. -/
def sanitizeQuotes (qs : List (Option Point)) : List Point := qs.filterMap id

/-- The `Math.min` over the dates of a (nonempty in all uses) quote list. -/
def minDate : List Day → Day
  | [] => 0
  | d :: ds => ds.foldl min d

/-- The `Math.max` over the dates of a (nonempty in all uses) quote list. -/
def maxDate : List Day → Day
  | [] => 0
  | d :: ds => ds.foldl max d

/-- The `oldest_date` CASE expression of the repository's `updateRange`:
a null stored bound adopts the argument, a null argument keeps the stored
bound, otherwise `LEAST`. -/
def widenOldest : Option Day → Option Day → Option Day
  | none, a => a
  | some o, none => some o
  | some o, some a => some (min o a)

/-- The `newest_date` CASE expression of the repository's `updateRange`:
a null stored bound adopts the argument, a null argument keeps the stored
bound, otherwise `GREATEST`. -/
def widenNewest : Option Day → Option Day → Option Day
  | none, a => a
  | some n, none => some n
  | some n, some a => some (max n a)

/-- One `updateRange` call applied to a stored `(oldest, newest)` row. -/
def widenPair (rn b : Option Day × Option Day) : Option Day × Option Day :=
  (widenOldest rn.1 b.1, widenNewest rn.2 b.2)

/-- A sequence of `updateRange` calls applied in order. -/
def applyWidens (rn : Option Day × Option Day) (calls : List (Option Day × Option Day)) :
    Option Day × Option Day :=
  calls.foldl widenPair rn

/-- The `SELECT ... WHERE trade_date BETWEEN ... ORDER BY trade_date ASC`
over the stored points. -/
def getPointsPure (pts : List Point) (p1 p2 : Day) : List Point :=
  sortByDate (pts.filter fun q => decide (p1 ≤ q.date) && decide (q.date ≤ p2))

/-!
## The world of one (symbol, interval) series

`getChartData` operates on a single composite key, so the world carries the
state for that one key: the series row (absent, or present with nullable
bounds), the points table, the Redis lock and no-older-data marker, the
upstream provider as a response function, two fault streams (one Boolean per
successive SQL statement group / Redis command, `true` meaning that call
throws; an exhausted stream means the backend is healthy), the in-call
`pointsToMerge` staging array, and the event trace.
-/

structure World where
  series : Option (Option Day × Option Day)
  points : List Point
  lockHeld : Bool
  noOlder : Bool
  fetchFn : Day → Day → Except Err (List (Option Point))
  storeFaults : List Bool
  redisFaults : List Bool
  staged : List Point
  trace : List Ev

/-- Append one event to the trace. -/
def World.addTrace (w : World) (e : Ev) : World := { w with trace := w.trace ++ [e] }

/-- Consume the head of the store-fault stream. -/
def World.consumeStore (w : World) : World := { w with storeFaults := w.storeFaults.tail }

/-- Consume the head of the Redis-fault stream. -/
def World.consumeRedis (w : World) : World := { w with redisFaults := w.redisFaults.tail }

/-- Does the next store operation throw? -/
def World.storeFaultNow (w : World) : Bool := w.storeFaults.headD false

/-- Does the next Redis command throw? -/
def World.redisFaultNow (w : World) : Bool := w.redisFaults.headD false

/-- A step of the embedded program: state passing with exceptions whose
effects before the throw persist (as in JavaScript). -/
def EStep (α : Type) : Type := World → Except Err α × World

/-- Return a value, leaving the world unchanged. -/
def ePure {α : Type} (a : α) : EStep α := fun w => (Except.ok a, w)

/-- Sequencing: an exception short-circuits but keeps the world reached so
far. -/
def eBind {α β : Type} (x : EStep α) (f : α → EStep β) : EStep β := fun w =>
  match x w with
  | (Except.ok a, w') => f a w'
  | (Except.error e, w') => (Except.error e, w')

instance : Monad EStep where
  pure := ePure
  bind := eBind

/-- Semantics of JavaScript try/catch/finally with bodies `body`, `log`, `fin`, where the catch block
only logs: any exception of `body` is swallowed and `fin` always runs. -/
def eTryFinally (body fin : EStep Unit) : EStep Unit := fun w => fin (body w).2

/-!
## External operations

Each repository function is one store-fault slot (its SQL either throws or
takes effect); each Redis command is one Redis-fault slot.  The Redis
wrappers in the service catch their own errors, so they never raise.
-/

/-- Repository `ensureYahooChartTables`: table creation; throws only on a store fault. -/
def ensureYahooChartTables : EStep Unit := fun w =>
  if w.storeFaultNow then (Except.error Err.store, w.consumeStore)
  else (Except.ok (), w.consumeStore)

/-- Repository `getStoredRange`: the series row, or `none` when absent. -/
def getStoredRange : EStep (Option (Option Day × Option Day)) := fun w =>
  if w.storeFaultNow then (Except.error Err.store, w.consumeStore)
  else (Except.ok w.series, w.consumeStore)

/-- Repository `getPoints`: stored points with dates in `[p1, p2]`, ascending. -/
def getPoints (p1 p2 : Day) : EStep (List Point) := fun w =>
  if w.storeFaultNow then (Except.error Err.store, w.consumeStore)
  else (Except.ok (getPointsPure w.points p1 p2), w.consumeStore)

/-- Repository `insertPoints`: returns immediately on an empty list (before any SQL);
otherwise ensures the series row exists (`ON CONFLICT DO NOTHING` with null
bounds) and upserts each point by `(date)` key. -/
def insertPoints (pts : List Point) : EStep Unit := fun w =>
  if pts = [] then (Except.ok (), w)
  else if w.storeFaultNow then (Except.error Err.store, w.consumeStore)
  else (Except.ok (), { w.consumeStore with
    series := some (w.series.getD (none, none)),
    points := pts.foldl mapSet w.points })

/-- Repository `updateRange`: the `LEAST`/`GREATEST` merge `UPDATE`; a no-op when the
series row does not exist (SQL `UPDATE ... WHERE` matches nothing). -/
def updateRange (o n : Option Day) : EStep Unit := fun w =>
  if w.storeFaultNow then (Except.error Err.store, w.consumeStore)
  else (Except.ok (), { w.consumeStore with
    series := w.series.map (fun rn => widenPair rn (o, n)) })

/-- Repository `initializeSeriesRange`: insert the row, falling back to the min/max
widen on conflict. -/
def initializeSeriesRange (o n : Day) : EStep Unit := fun w =>
  if w.storeFaultNow then (Except.error Err.store, w.consumeStore)
  else (Except.ok (), { w.consumeStore with
    series := some (match w.series with
      | none => (some o, some n)
      | some rn => widenPair rn (some o, some n)) })

/-- Service `acquireBackfillLock`: `setNX` then `expire`, catch-all returning
`false`.  A fault on `setNX` yields `false` with no lock written; when the
lock is already held `setNX` returns 0 and the call yields `false`; when
`setNX` succeeds the lock is written, and a fault on the subsequent
`expire` still makes the call yield `false` (lock left behind until its
TTL).  The boolean handed to the caller is recorded in the trace. -/
def acquireBackfillLock : EStep Bool := fun w =>
  let f1 := w.redisFaultNow
  let w1 := w.consumeRedis
  if f1 then (Except.ok false, w1.addTrace (Ev.acq false))
  else if w1.lockHeld then (Except.ok false, w1.addTrace (Ev.acq false))
  else
    let f2 := w1.redisFaultNow
    let w2 := { w1.consumeRedis with lockHeld := true }
    if f2 then (Except.ok false, w2.addTrace (Ev.acq false))
    else (Except.ok true, w2.addTrace (Ev.acq true))

/-- Service `releaseBackfillLock`: `del` with a catch-all; the invocation is always
recorded, and the lock is cleared unless the `del` itself faults. -/
def releaseBackfillLock : EStep Unit := fun w =>
  let f := w.redisFaultNow
  let w1 := w.consumeRedis
  if f then (Except.ok (), w1.addTrace Ev.rel)
  else (Except.ok (), ({ w1 with lockHeld := false }).addTrace Ev.rel)

/-- Service `checkNoOlderData`: reads the marker; any Redis error degrades to
`false`. -/
def checkNoOlderData : EStep Bool := fun w =>
  let f := w.redisFaultNow
  let w1 := w.consumeRedis
  if f then (Except.ok false, w1) else (Except.ok w1.noOlder, w1)

/-- Service `setNoOlderData`: sets the 24h marker; a Redis error is swallowed. -/
def setNoOlderData : EStep Unit := fun w =>
  let f := w.redisFaultNow
  let w1 := w.consumeRedis
  if f then (Except.ok (), w1) else (Except.ok (), { w1 with noOlder := true })

/-- The retry wrapper's `getChart` as seen by the service: the upstream
response for the requested inclusive day range (a list of raw quotes, some
of which may be null or invalid, or an error).  The call itself is traced. -/
def fetchChartFromYahoo (a b : Day) : EStep (List (Option Point)) := fun w =>
  match w.fetchFn a b with
  | Except.ok qs => (Except.ok qs, w.addTrace (Ev.fetch a b))
  | Except.error e => (Except.error e, w.addTrace (Ev.fetch a b))

/-- The source's `pointsToMerge.push(...quotes)`. -/
def pushStaged (pts : List Point) : EStep Unit := fun w =>
  (Except.ok (), { w with staged := w.staged ++ pts })

/-- The source's `let pointsToMerge = []` at the head of the warm path. -/
def setStagedEmpty : EStep Unit := fun w => (Except.ok (), { w with staged := [] })

/-- Read the staged points for the final merge. -/
def getStaged : EStep (List Point) := fun w => (Except.ok w.staged, w)

/-!
## `getChartData`

The service function, translated block by block.  Each `try/catch/finally`
around a backfill fetch becomes `lockRegion`: acquire, and when granted run
the body with errors swallowed and the release always executed.
-/

/-- The source's lock-guarded region: `if (lockAcquired)`, then try `body`, catch/log, finally `release`. -/
def lockRegion (body : EStep Unit) : EStep Unit := do
  let lockAcquired ← acquireBackfillLock
  if lockAcquired then eTryFinally body releaseBackfillLock
  else ePure ()

/-- Older-edge fetch body (warm path, non-null `oldestDate`): fetch
`[backfillStart, backfillEnd]`; zero sanitized points set the
no-older-data marker, otherwise the points are persisted, staged, and the
`oldestDate` widened down to the oldest fetched date. -/
def olderFetchBody (a b : Day) : EStep Unit := do
  let olderResult ← fetchChartFromYahoo a b
  let olderQuotes := sanitizeQuotes olderResult
  if olderQuotes = [] then setNoOlderData
  else do
    insertPoints olderQuotes
    pushStaged olderQuotes
    updateRange (some (minDate (olderQuotes.map Point.date))) none

/-- Newer-edge fetch body: symmetric, with no negative-result marker; the
`newestDate` is widened up to the newest fetched date. -/
def newerFetchBody (a b : Day) : EStep Unit := do
  let newerResult ← fetchChartFromYahoo a b
  let newerQuotes := sanitizeQuotes newerResult
  if newerQuotes = [] then ePure ()
  else do
    insertPoints newerQuotes
    pushStaged newerQuotes
    updateRange none (some (maxDate (newerQuotes.map Point.date)))

/-- The `needOlder && oldestDate != null` block: skip when the no-older-data
marker is present; otherwise fetch `[from, oldestDate - 1 day]` when that
sub-range is nonempty, under the backfill lock. -/
def olderEdgeBlock (p1 oldest : Day) : EStep Unit := do
  let flagged ← checkNoOlderData
  if flagged then ePure ()
  else
    if p1 ≤ oldest - 1 then lockRegion (olderFetchBody p1 (oldest - 1))
    else ePure ()

/-- The `needNewer && newestDate != null` block: fetch
`[newestDate + 1 day, to]` when nonempty, under the backfill lock. -/
def newerEdgeBlock (newest p2 : Day) : EStep Unit :=
  if newest + 1 ≤ p2 then lockRegion (newerFetchBody (newest + 1) p2)
  else ePure ()

/-- The `needOlder && oldestDate == null` body.  The source computes
`period2: normalizedPeriod2 < newestDate! ? normalizedPeriod2
: addDays(newestDate!, -1)`; when `newestDate` is null, JavaScript coerces
it to the number 0 in the comparison and `addDays(null, -1)` is the day
before the epoch, so the fetched range end is `p2` if `p2 < 0`, else
`-1`. -/
def initialOlderBody (p1 p2 : Day) (newestDate : Option Day) : EStep Unit := do
  let fetchEnd := match newestDate with
    | some n => if p2 < n then p2 else n - 1
    | none => if p2 < 0 then p2 else (-1 : Day)
  let olderResult ← fetchChartFromYahoo p1 fetchEnd
  let olderQuotes := sanitizeQuotes olderResult
  if olderQuotes = [] then ePure ()
  else do
    insertPoints olderQuotes
    pushStaged olderQuotes
    updateRange (some (minDate (olderQuotes.map Point.date))) none

/-- The `needNewer && newestDate == null` body.  The source computes
`period1: normalizedPeriod1 > oldestDate! ? normalizedPeriod1
: addDays(oldestDate!, 1)`; when `oldestDate` is null the JavaScript
coercion gives `p1` if `p1 > 0`, else the day after the epoch. -/
def initialNewerBody (oldestDate : Option Day) (p1 p2 : Day) : EStep Unit := do
  let fetchStart := match oldestDate with
    | some o => if p1 > o then p1 else o + 1
    | none => if p1 > 0 then p1 else (1 : Day)
  let newerResult ← fetchChartFromYahoo fetchStart p2
  let newerQuotes := sanitizeQuotes newerResult
  if newerQuotes = [] then ePure ()
  else do
    insertPoints newerQuotes
    pushStaged newerQuotes
    updateRange none (some (maxDate (newerQuotes.map Point.date)))

/-- Warm-path older slot: the `if (needOlder && oldestDate != null)`
statement (with `needOlder = oldestDate == null || p1 < oldestDate`). -/
def olderSlot (p1 : Day) (oldestDate : Option Day) : EStep Unit :=
  match oldestDate with
  | some o => if p1 < o then olderEdgeBlock p1 o else ePure ()
  | none => ePure ()

/-- Warm-path newer slot: the `if (needNewer && newestDate != null)`
statement. -/
def newerSlot (p2 : Day) (newestDate : Option Day) : EStep Unit :=
  match newestDate with
  | some n => if n < p2 then newerEdgeBlock n p2 else ePure ()
  | none => ePure ()

/-- The `if (needOlder && oldestDate == null)` statement (`needOlder` is
automatically true there, and there is no marker check and no sub-range
emptiness guard in this branch). -/
def initialOlderSlot (p1 p2 : Day) (oldestDate newestDate : Option Day) : EStep Unit :=
  match oldestDate with
  | none => lockRegion (initialOlderBody p1 p2 newestDate)
  | some _ => ePure ()

/-- The `if (needNewer && newestDate == null)` statement. -/
def initialNewerSlot (p1 p2 : Day) (oldestDate newestDate : Option Day) : EStep Unit :=
  match newestDate with
  | none => lockRegion (initialNewerBody oldestDate p1 p2)
  | some _ => ePure ()

/-- Lines 182-338 of the service: the warm path once complete coverage has
been ruled out — run the four backfill slots, re-read the stored points for
the request, merge with the staged points, filter to `[p1, p2]` and sort. -/
def warmBackfill (p1 p2 : Day) (oldestDate newestDate : Option Day) : EStep (List Point) := do
  setStagedEmpty
  olderSlot p1 oldestDate
  newerSlot p2 newestDate
  initialOlderSlot p1 p2 oldestDate newestDate
  initialNewerSlot p1 p2 oldestDate newestDate
  let refreshedDbPoints ← getPoints p1 p2
  let staged ← getStaged
  let allPoints := mergePoints refreshedDbPoints staged
  ePure (sortByDate (allPoints.filter fun q => decide (p1 ≤ q.date) && decide (q.date ≤ p2)))

/-- Cold start (no series row): fetch the whole requested range (the
source's `catch` here logs and rethrows, so errors propagate); zero
sanitized points yield an empty result without error; otherwise persist all
points, initialize the series range to the fetched min/max, and return the
sanitized quotes as fetched. -/
def coldStartPath (p1 p2 : Day) : EStep (List Point) := do
  let chartData ← fetchChartFromYahoo p1 p2
  let quotes := sanitizeQuotes chartData
  if quotes = [] then ePure []
  else do
    insertPoints quotes
    initializeSeriesRange (minDate (quotes.map Point.date)) (maxDate (quotes.map Point.date))
    ePure quotes

/-- The complete-coverage test: both stored bounds non-null, the request
inside them, and a nonempty stored result for the requested window. -/
def hasCompleteCoverage (rn : Option Day × Option Day) (p1 p2 : Day)
    (dbPoints : List Point) : Bool :=
  match rn with
  | (some o, some n) => decide (o ≤ p1) && decide (p2 ≤ n) && !dbPoints.isEmpty
  | _ => false

/-- The service's `getChartData(symbol, interval, period1, period2)` for one series key,
returning the merged point sequence (the source's `timestamp`/`closes`
arrays are its two positional projections `date * 86400` and `close`). -/
def getChartData (p1 p2 : Day) : EStep (List Point) := do
  ensureYahooChartTables
  let storedRange ← getStoredRange
  match storedRange with
  | none => coldStartPath p1 p2
  | some rn => do
    let dbPoints ← getPoints p1 p2
    if hasCompleteCoverage rn p1 p2 dbPoints then ePure dbPoints
    else warmBackfill p1 p2 rn.1 rn.2

/-!
## The retry wrapper (`src/src/utils/yahooRetry.ts`)

`executeWithRetry` is a `for (let attempt = 0; attempt <= MAX_RETRIES;
attempt++)` loop around the operation.  The operation's successive
invocations are modelled as a function from the attempt index to an
outcome; the embedding returns the final outcome together with the number
of invocations actually performed and the list of back-off delays slept
between attempts.  (The `enforceRateLimit()` call that precedes the loop
only sleeps; it performs no invocation of the operation and does not affect
the loop's outcome, so it is not modelled here.)
-/

/-- A JavaScript error as inspected by `isRateLimitError`: an optional
`status` field and a `message` string. -/
structure JsError where
  status : Option Int
  message : String
deriving DecidableEq

/-- JavaScript `message.includes(sub)`. -/
def strContains (s sub : String) : Bool :=
  (List.range (s.toList.length + 1)).any fun i => sub.toList.isPrefixOf (s.toList.drop i)

/-- The classifier `isRateLimitError`: HTTP 429 status, a message containing "429" or
"Too Many Requests", or the upstream crumb/session-negotiation failure. -/
def isRateLimitError (e : JsError) : Bool :=
  e.status == some 429 ||
    strContains e.message "429" ||
    strContains e.message "Too Many Requests" ||
    strContains e.message "Failed to get crumb"

/-- The constant `MAX_RETRIES = 8`. -/
def MAX_RETRIES : Nat := 8

/-- The constant `RETRY_DELAY_MS = 2000`. -/
def RETRY_DELAY_MS : Nat := 2000

/-- What `executeWithRetry` raises: a JavaScript error from the operation,
or the `new Error('Max retries exceeded')` after the loop. -/
inductive RetryErr where
  | js : JsError → RetryErr
  | maxRetriesExceeded : RetryErr
deriving DecidableEq

/-- Outcome of a whole `executeWithRetry` run: the result, the number of
times the operation was invoked, and the delays slept between attempts. -/
structure RetryRun (α : Type) where
  result : Except RetryErr α
  calls : Nat
  delays : List Nat

/-- The loop body from attempt index `attempt`; `fuel` counts the loop
iterations still permitted by `attempt <= MAX_RETRIES` (it is
`MAX_RETRIES + 1 - attempt`), and exhausting it reaches the
`throw new Error('Max retries exceeded')` after the loop. -/
def retryGo {α : Type} (op : Nat → Except JsError α) : Nat → Nat → RetryRun α
  | _, 0 => ⟨Except.error RetryErr.maxRetriesExceeded, 0, []⟩
  | attempt, fuel + 1 =>
    match op attempt with
    | Except.ok v => ⟨Except.ok v, 1, []⟩
    | Except.error e =>
      if isRateLimitError e ∧ attempt < MAX_RETRIES then
        let rest := retryGo op (attempt + 1) fuel
        ⟨rest.result, rest.calls + 1, RETRY_DELAY_MS * 2 ^ attempt :: rest.delays⟩
      else ⟨Except.error (RetryErr.js e), 1, []⟩

/-- The source's `executeWithRetry(operation)`. -/
def executeWithRetry {α : Type} (op : Nat → Except JsError α) : RetryRun α :=
  retryGo op 0 (MAX_RETRIES + 1)

structure TameInv (w w' : World) : Prop where
  sf : w.storeFaults = [] → w'.storeFaults = []
  nodup : keysNodup w.points → keysNodup w'.points
  tr : ∃ evs, w'.trace = w.trace ++ evs ∧ evs.countP isGrantEv = 0 ∧ evs.countP isRelEv = 0
  lock : w'.lockHeld = w.lockHeld
  rf : w.redisFaults = [] → w'.redisFaults = []

structure StepInv (w w' : World) : Prop where
  sf : w.storeFaults = [] → w'.storeFaults = []
  nodup : keysNodup w.points → keysNodup w'.points
  tr : ∃ evs, w'.trace = w.trace ++ evs ∧ evs.countP isGrantEv = evs.countP isRelEv
  lockfree : w.redisFaults = [] ∧ w.lockHeld = false → w'.redisFaults = [] ∧ w'.lockHeld = false

/-- Operations that never touch the lock or the acquire/release trace. -/
def Tame {α : Type} (x : EStep α) : Prop := ∀ w, TameInv w (x w).2

/-- Operations preserving the whole-call invariant. -/
def GStep {α : Type} (x : EStep α) : Prop := ∀ w, StepInv w (x w).2

/-- Operations of `Unit` type that always succeed and preserve the whole-call
invariant. -/
def SafeStep (x : EStep Unit) : Prop :=
  ∀ w, ∃ w', x w = (Except.ok (), w') ∧ StepInv w w'

/-!
## Concrete worlds used by witnesses and counterexamples
-/

/-- A warm series (range `[16, 20]`) whose Redis answers the marker check
and then throws on the lock acquisition's `setNX`. -/
def cw1 : World :=
  ⟨some (some 16, some 20), [⟨16, some 1⟩], false, false, fun _ _ => Except.ok [],
    [], [false, true], [], []⟩

/-- A series row whose two bounds are both null (incomplete prior
initialization), with healthy backends and an upstream returning no
quotes. -/
def cw3 : World :=
  ⟨some (none, none), [], false, false, fun _ _ => Except.ok [], [], [], [], []⟩

/-- A plain HTTP 429 throttling error. -/
def c429 : JsError := ⟨some 429, "Too Many Requests"⟩

/-- A warm series with range `[4, 6]` and a stored point for every day in
it. -/
def cw4 : World :=
  ⟨some (some 4, some 6), [⟨4, some 1⟩, ⟨5, some 2⟩, ⟨6, some 3⟩], false, false,
    fun _ _ => Except.ok [], [], [], [], []⟩

/-- A cold key whose upstream fails outright. -/
def cw6 : World :=
  ⟨none, [], false, false, fun _ _ => Except.error (Err.upstream 7), [], [], [], []⟩

/-- Ten stored points for days 19754-19763, i.e. 2024-02-01..2024-02-10. -/
def cw7pts : List Point :=
  [⟨19754, some 100⟩, ⟨19755, some 100⟩, ⟨19756, some 100⟩, ⟨19757, some 100⟩,
    ⟨19758, some 100⟩, ⟨19759, some 100⟩, ⟨19760, some 100⟩, ⟨19761, some 100⟩,
    ⟨19762, some 100⟩, ⟨19763, some 100⟩]

/-- A warm series with stored range `[2024-02-01, 2024-02-10]`
(days `[19754, 19763]`), no marker, a free lock, healthy backends, and an
upstream that returns zero points. -/
def cw7 : World :=
  ⟨some (some 19754, some 19763), cw7pts, false, false, fun _ _ => Except.ok [],
    [], [], [], []⟩

/-- The world after resolving `[2024-01-25, 2024-02-05]`
(days `[19747, 19758]`) on `cw7`. -/
def cw7after : World := (getChartData 19747 19758 cw7).2

/-- A cold key whose upstream returns points out of order. -/
def cw8 : World :=
  ⟨none, [], false, false, fun _ _ => Except.ok [some ⟨5, none⟩, some ⟨3, none⟩],
    [], [], [], []⟩

/-- A warm series with one stored point, for the C8 witness. -/
def cw8w : World :=
  ⟨some (some 5, some 6), [⟨5, some 1⟩], false, false, fun _ _ => Except.ok [],
    [], [], [], []⟩

/-- A warm series with healthy backends and a free lock, for the C10
witness. -/
def cw10 : World :=
  ⟨some (some 19754, some 19763), [], false, false, fun _ _ => Except.ok [],
    [], [], [], []⟩

/-!
## Lemmas about the pure data operations
-/

theorem bind_eStep {α β : Type} (x : EStep α) (f : α → EStep β) :
    (x >>= f) = eBind x f := rfl

theorem pure_eStep {α : Type} (a : α) : (pure a : EStep α) = ePure a := rfl

theorem eBind_ok {α β : Type} {x : EStep α} {f : α → EStep β} {w w' : World} {a : α}
    (h : x w = (Except.ok a, w')) : eBind x f w = f a w' := by
  unfold eBind; rw [h]

theorem eBind_err {α β : Type} {x : EStep α} {f : α → EStep β} {w w' : World} {e : Err}
    (h : x w = (Except.error e, w')) : eBind x f w = (Except.error e, w') := by
  unfold eBind; rw [h]

theorem sortByDate_sorted (l : List Point) : List.Sorted ptLE (sortByDate l) :=
  List.sorted_insertionSort ptLE l

theorem sortByDate_perm (l : List Point) : List.Perm (sortByDate l) l :=
  List.perm_insertionSort ptLE l

theorem mem_sortByDate {q : Point} {l : List Point} : q ∈ sortByDate l ↔ q ∈ l :=
  (sortByDate_perm l).mem_iff

theorem sortByDate_keysNodup {l : List Point} (h : keysNodup l) : keysNodup (sortByDate l) :=
  (((sortByDate_perm l).map Point.date).nodup_iff).mpr h

theorem keysNodup_nil : keysNodup [] := by simp [keysNodup, keys]

theorem mem_keys {d : Day} {l : List Point} : d ∈ keys l ↔ ∃ q ∈ l, q.date = d := by
  simp [keys]

theorem mem_mapSet {q p : Point} : ∀ {m : List Point}, q ∈ mapSet m p → q = p ∨ q ∈ m := by
  intro m
  induction m with
  | nil => intro h; simp [mapSet] at h; exact Or.inl h
  | cons a as ih =>
    intro h
    by_cases hd : a.date = p.date
    · simp only [mapSet, if_pos hd, List.mem_cons] at h
      rcases h with h | h
      · exact Or.inl h
      · exact Or.inr (List.mem_cons_of_mem _ h)
    · simp only [mapSet, if_neg hd, List.mem_cons] at h
      rcases h with h | h
      · exact Or.inr (by simp [h])
      · rcases ih h with h' | h'
        · exact Or.inl h'
        · exact Or.inr (List.mem_cons_of_mem _ h')

theorem mem_keys_mapSet {d : Day} {p : Point} :
    ∀ {m : List Point}, d ∈ keys (mapSet m p) ↔ d = p.date ∨ d ∈ keys m := by
  intro m
  induction m with
  | nil => simp [mapSet, keys]
  | cons a as ih =>
    by_cases hd : a.date = p.date
    · simp only [mapSet, if_pos hd, keys, List.map_cons, List.mem_cons]
      simp only [keys] at *
      constructor
      · rintro (h | h)
        · exact Or.inl h
        · exact Or.inr (Or.inr h)
      · rintro (h | h | h)
        · exact Or.inl h
        · exact Or.inl (by rw [h, hd])
        · exact Or.inr h
    · simp only [mapSet, if_neg hd, keys, List.map_cons, List.mem_cons] at *
      rw [ih]
      tauto

theorem keysNodup_mapSet {p : Point} :
    ∀ {m : List Point}, keysNodup m → keysNodup (mapSet m p) := by
  intro m
  induction m with
  | nil => intro _; simp [mapSet, keysNodup, keys]
  | cons a as ih =>
    intro h
    simp only [keysNodup, keys, List.map_cons, List.nodup_cons] at h
    by_cases hd : a.date = p.date
    · simp only [mapSet, if_pos hd, keysNodup, keys, List.map_cons, List.nodup_cons]
      exact ⟨by rw [← hd]; exact h.1, h.2⟩
    · simp only [mapSet, if_neg hd, keysNodup, keys, List.map_cons, List.nodup_cons]
      refine ⟨?_, ih h.2⟩
      intro hmem
      rcases (mem_keys_mapSet (m := as)).mp hmem with h' | h'
      · exact hd h'
      · exact h.1 h'

theorem mem_mapSet_iff {q p : Point} :
    ∀ {m : List Point}, keysNodup m →
      (q ∈ mapSet m p ↔ q = p ∨ (q ∈ m ∧ q.date ≠ p.date)) := by
  intro m
  induction m with
  | nil => intro _; simp [mapSet]
  | cons a as ih =>
    intro h
    simp only [keysNodup, keys, List.map_cons, List.nodup_cons] at h
    by_cases hd : a.date = p.date
    · simp only [mapSet, if_pos hd, List.mem_cons]
      constructor
      · rintro (h' | h')
        · exact Or.inl h'
        · refine Or.inr ⟨Or.inr h', ?_⟩
          intro hq
          apply h.1
          rw [hd, ← hq]
          exact mem_keys.mpr ⟨q, h', rfl⟩
      · rintro (h' | ⟨h1, h2⟩)
        · exact Or.inl h'
        · rcases h1 with h1 | h1
          · exact absurd (by rw [h1, hd]) h2
          · exact Or.inr h1
    · simp only [mapSet, if_neg hd, List.mem_cons]
      rw [ih h.2]
      constructor
      · rintro (h' | h' | ⟨h1, h2⟩)
        · exact Or.inr ⟨Or.inl h', by rw [h']; exact hd⟩
        · exact Or.inl h'
        · exact Or.inr ⟨Or.inr h1, h2⟩
      · rintro (h' | ⟨h1 | h1, h2⟩)
        · exact Or.inr (Or.inl h')
        · exact Or.inl h1
        · exact Or.inr (Or.inr ⟨h1, h2⟩)

theorem keysNodup_foldl_mapSet :
    ∀ (ns : List Point) {acc : List Point}, keysNodup acc → keysNodup (ns.foldl mapSet acc) := by
  intro ns
  induction ns with
  | nil => intro acc h; simpa using h
  | cons n rest ih =>
    intro acc h
    simpa [List.foldl_cons] using ih (keysNodup_mapSet h)

theorem mem_foldl_mapSet_subset {q : Point} :
    ∀ (ns : List Point) {acc : List Point}, q ∈ ns.foldl mapSet acc → q ∈ ns ∨ q ∈ acc := by
  intro ns
  induction ns with
  | nil => intro acc h; exact Or.inr (by simpa using h)
  | cons n rest ih =>
    intro acc h
    rcases ih (by simpa [List.foldl_cons] using h) with h' | h'
    · exact Or.inl (List.mem_cons_of_mem _ h')
    · rcases mem_mapSet h' with h'' | h''
      · exact Or.inl (by simp [h''])
      · exact Or.inr h''

theorem mem_foldl_mapSet_strong {q : Point} :
    ∀ (ns : List Point) {acc : List Point}, keysNodup acc →
      q ∈ ns.foldl mapSet acc →
      q ∈ ns ∨ (q ∈ acc ∧ ∀ r ∈ ns, r.date ≠ q.date) := by
  intro ns
  induction ns with
  | nil => intro acc _ h; exact Or.inr ⟨by simpa using h, by simp⟩
  | cons n rest ih =>
    intro acc hacc h
    rcases ih (keysNodup_mapSet hacc) (by simpa [List.foldl_cons] using h) with h' | ⟨h1, h2⟩
    · exact Or.inl (List.mem_cons_of_mem _ h')
    · rcases (mem_mapSet_iff hacc).mp h1 with h' | ⟨h3, h4⟩
      · exact Or.inl (by simp [h'])
      · refine Or.inr ⟨h3, ?_⟩
        intro r hr
        rcases List.mem_cons.mp hr with hr | hr
        · rw [hr]; exact fun he => h4 he.symm
        · exact h2 r hr

theorem mergePoints_keysNodup (e n : List Point) : keysNodup (mergePoints e n) :=
  sortByDate_keysNodup (keysNodup_foldl_mapSet n (keysNodup_foldl_mapSet e keysNodup_nil))

/-- Collision resolution of `mergePoints`: every returned point is one of
the newly fetched points, or a pre-existing point whose date collides with
no newly fetched point.  Newly fetched values win. -/
theorem mergePoints_mem {q : Point} (e n : List Point) (h : q ∈ mergePoints e n) :
    q ∈ n ∨ (q ∈ e ∧ ∀ r ∈ n, r.date ≠ q.date) := by
  have h1 : q ∈ n.foldl mapSet (e.foldl mapSet []) := mem_sortByDate.mp h
  have hn : keysNodup (e.foldl mapSet []) := keysNodup_foldl_mapSet e keysNodup_nil
  rcases mem_foldl_mapSet_strong n hn h1 with h' | ⟨h2, h3⟩
  · exact Or.inl h'
  · rcases mem_foldl_mapSet_subset e h2 with h4 | h4
    · exact Or.inr ⟨h4, h3⟩
    · simp at h4

theorem mem_getPointsPure {q : Point} {pts : List Point} {p1 p2 : Day} :
    q ∈ getPointsPure pts p1 p2 ↔ q ∈ pts ∧ p1 ≤ q.date ∧ q.date ≤ p2 := by
  simp [getPointsPure, mem_sortByDate, List.mem_filter, and_assoc]

theorem getPointsPure_sorted (pts : List Point) (p1 p2 : Day) :
    List.Sorted ptLE (getPointsPure pts p1 p2) :=
  sortByDate_sorted _

theorem getPointsPure_keysNodup {pts : List Point} (h : keysNodup pts) (p1 p2 : Day) :
    keysNodup (getPointsPure pts p1 p2) := by
  refine sortByDate_keysNodup ?_
  exact List.Nodup.sublist (List.Sublist.map Point.date (List.filter_sublist pts)) h

theorem getPointsPure_ne_nil {pts : List Point} {p1 p2 : Day} (hle : p1 ≤ p2)
    (hq : ∃ q ∈ pts, q.date = p1) : getPointsPure pts p1 p2 ≠ [] := by
  rcases hq with ⟨q, hmem, hdate⟩
  refine List.ne_nil_of_mem (mem_getPointsPure.mpr ⟨hmem, le_of_eq hdate.symm, ?_⟩)
  rw [hdate]
  exact hle

/-!
## Lemmas about the range-widening merge
-/

theorem widenOldest_le {o : Day} {a : Option Day} :
    ∃ o', widenOldest (some o) a = some o' ∧ o' ≤ o := by
  cases a with
  | none => exact ⟨o, rfl, le_refl o⟩
  | some x => exact ⟨min o x, rfl, min_le_left o x⟩

theorem widenNewest_ge {n : Day} {a : Option Day} :
    ∃ n', widenNewest (some n) a = some n' ∧ n ≤ n' := by
  cases a with
  | none => exact ⟨n, rfl, le_refl n⟩
  | some x => exact ⟨max n x, rfl, le_max_left n x⟩

theorem widenOldest_comm_assoc (s a b : Option Day) :
    widenOldest (widenOldest s a) b = widenOldest (widenOldest s b) a := by
  cases s <;> cases a <;> cases b <;>
    simp [widenOldest, min_assoc, min_comm, min_left_comm]

theorem widenNewest_comm_assoc (s a b : Option Day) :
    widenNewest (widenNewest s a) b = widenNewest (widenNewest s b) a := by
  cases s <;> cases a <;> cases b <;>
    simp [widenNewest, max_assoc, max_comm, max_left_comm]

theorem widenOldest_idem (s a : Option Day) :
    widenOldest (widenOldest s a) a = widenOldest s a := by
  cases s <;> cases a <;> simp [widenOldest, min_assoc]

theorem widenNewest_idem (s a : Option Day) :
    widenNewest (widenNewest s a) a = widenNewest s a := by
  cases s <;> cases a <;> simp [widenNewest, max_assoc]

/-!
## Execution invariants

`TameInv` relates a world to the world after any sequence of operations
that touches neither the lock nor the acquire/release trace — everything
except `acquireBackfillLock`/`releaseBackfillLock`.  `StepInv` is the
whole-call invariant: store faults and point-key uniqueness are preserved,
the trace grows by a segment with as many granted acquisitions as
releases, and under a healthy Redis a free lock stays free.
-/

theorem consumeStore_of_nil {w : World} (h : w.storeFaults = []) : w.consumeStore = w := by
  cases w
  simp_all [World.consumeStore]

theorem consumeRedis_of_nil {w : World} (h : w.redisFaults = []) : w.consumeRedis = w := by
  cases w
  simp_all [World.consumeRedis]

theorem tameInv_refl (w : World) : TameInv w w :=
  ⟨id, id, ⟨[], by simp, rfl, rfl⟩, rfl, id⟩

theorem tameInv_trans {w1 w2 w3 : World} (h1 : TameInv w1 w2) (h2 : TameInv w2 w3) :
    TameInv w1 w3 := by
  obtain ⟨e1, he1, hg1, hr1⟩ := h1.tr
  obtain ⟨e2, he2, hg2, hr2⟩ := h2.tr
  exact ⟨fun h => h2.sf (h1.sf h), fun h => h2.nodup (h1.nodup h),
    ⟨e1 ++ e2, by rw [he2, he1, List.append_assoc],
      by rw [List.countP_append, hg1, hg2],
      by rw [List.countP_append, hr1, hr2]⟩,
    h2.lock.trans h1.lock, fun h => h2.rf (h1.rf h)⟩

theorem tameInv_toStepInv {w w' : World} (h : TameInv w w') : StepInv w w' := by
  obtain ⟨e, he, hg, hr⟩ := h.tr
  exact ⟨h.sf, h.nodup, ⟨e, he, by rw [hg, hr]⟩,
    fun hc => ⟨h.rf hc.1, by rw [h.lock, hc.2]⟩⟩

theorem stepInv_refl (w : World) : StepInv w w :=
  tameInv_toStepInv (tameInv_refl w)

theorem stepInv_trans {w1 w2 w3 : World} (h1 : StepInv w1 w2) (h2 : StepInv w2 w3) :
    StepInv w1 w3 := by
  obtain ⟨e1, he1, hc1⟩ := h1.tr
  obtain ⟨e2, he2, hc2⟩ := h2.tr
  exact ⟨fun h => h2.sf (h1.sf h), fun h => h2.nodup (h1.nodup h),
    ⟨e1 ++ e2, by rw [he2, he1, List.append_assoc],
      by rw [List.countP_append, List.countP_append, hc1, hc2]⟩,
    fun hc => h2.lockfree (h1.lockfree hc)⟩

theorem tame_bind {α β : Type} {x : EStep α} {f : α → EStep β}
    (hx : Tame x) (hf : ∀ a, Tame (f a)) : Tame (eBind x f) := by
  intro w
  unfold eBind
  rcases hxw : x w with ⟨r, w1⟩
  have h1 : TameInv w w1 := by have := hx w; rwa [hxw] at this
  cases r with
  | ok a => exact tameInv_trans h1 (hf a w1)
  | error e => exact h1

theorem tame_ePure {α : Type} (a : α) : Tame (ePure a) := by
  intro w
  exact tameInv_refl w

theorem tame_ite {c : Prop} [Decidable c] {α : Type} {x y : EStep α}
    (hx : Tame x) (hy : Tame y) : Tame (if c then x else y) := by
  by_cases h : c
  · rw [if_pos h]; exact hx
  · rw [if_neg h]; exact hy

theorem gstep_bind {α β : Type} {x : EStep α} {f : α → EStep β}
    (hx : GStep x) (hf : ∀ a, GStep (f a)) : GStep (eBind x f) := by
  intro w
  unfold eBind
  rcases hxw : x w with ⟨r, w1⟩
  have h1 : StepInv w w1 := by have := hx w; rwa [hxw] at this
  cases r with
  | ok a => exact stepInv_trans h1 (hf a w1)
  | error e => exact h1

theorem gstep_ePure {α : Type} (a : α) : GStep (ePure a) := by
  intro w
  exact stepInv_refl w

theorem gstep_ite {c : Prop} [Decidable c] {α : Type} {x y : EStep α}
    (hx : GStep x) (hy : GStep y) : GStep (if c then x else y) := by
  by_cases h : c
  · rw [if_pos h]; exact hx
  · rw [if_neg h]; exact hy

theorem tame_toGStep {α : Type} {x : EStep α} (h : Tame x) : GStep x :=
  fun w => tameInv_toStepInv (h w)

theorem safe_toGStep {x : EStep Unit} (h : SafeStep x) : GStep x := by
  intro w
  obtain ⟨w', hx, hi⟩ := h w
  rw [hx]
  exact hi

theorem safe_ite {c : Prop} [Decidable c] {x y : EStep Unit}
    (hx : SafeStep x) (hy : SafeStep y) : SafeStep (if c then x else y) := by
  by_cases h : c
  · rw [if_pos h]; exact hx
  · rw [if_neg h]; exact hy

theorem safe_ePure : SafeStep (ePure ()) := by
  intro w
  exact ⟨w, rfl, stepInv_refl w⟩

theorem countP_singleton (p : Ev → Bool) (e : Ev) :
    List.countP p [e] = if p e then 1 else 0 := by
  simp [List.countP_cons]

theorem tameInv_consumeStore (w : World) : TameInv w w.consumeStore :=
  ⟨fun h => by simp [World.consumeStore, h], fun h => by simpa [World.consumeStore] using h,
    ⟨[], by simp [World.consumeStore], rfl, rfl⟩, by simp [World.consumeStore],
    fun h => by simp [World.consumeStore, h]⟩

theorem tameInv_consumeRedis (w : World) : TameInv w w.consumeRedis :=
  ⟨fun h => by simp [World.consumeRedis, h], fun h => by simpa [World.consumeRedis] using h,
    ⟨[], by simp [World.consumeRedis], rfl, rfl⟩, by simp [World.consumeRedis],
    fun h => by simp [World.consumeRedis, h]⟩

theorem tame_ensure : Tame ensureYahooChartTables := by
  intro w
  unfold ensureYahooChartTables
  cases h : w.storeFaultNow <;> simp [h] <;> exact tameInv_consumeStore w

theorem tame_getStoredRange : Tame getStoredRange := by
  intro w
  unfold getStoredRange
  cases h : w.storeFaultNow <;> simp [h] <;> exact tameInv_consumeStore w

theorem tame_getPoints (p1 p2 : Day) : Tame (getPoints p1 p2) := by
  intro w
  unfold getPoints
  cases h : w.storeFaultNow <;> simp [h] <;> exact tameInv_consumeStore w

theorem tame_insertPoints (pts : List Point) : Tame (insertPoints pts) := by
  intro w
  unfold insertPoints
  by_cases hp : pts = []
  · simp [hp]
    exact tameInv_refl w
  · cases h : w.storeFaultNow <;> simp [h, hp]
    · refine tameInv_trans (tameInv_consumeStore w) ?_
      exact ⟨fun h => by simpa using h, fun h => by simpa using keysNodup_foldl_mapSet pts (by simpa [World.consumeStore] using h),
        ⟨[], by simp, rfl, rfl⟩, by simp, fun h => by simpa using h⟩
    · exact tameInv_consumeStore w

theorem tame_updateRange (o n : Option Day) : Tame (updateRange o n) := by
  intro w
  unfold updateRange
  cases h : w.storeFaultNow <;> simp [h]
  · refine tameInv_trans (tameInv_consumeStore w) ?_
    exact ⟨fun h => by simpa using h, fun h => by simpa using h,
      ⟨[], by simp, rfl, rfl⟩, by simp, fun h => by simpa using h⟩
  · exact tameInv_consumeStore w

theorem tame_initializeSeriesRange (o n : Day) : Tame (initializeSeriesRange o n) := by
  intro w
  unfold initializeSeriesRange
  cases h : w.storeFaultNow <;> simp [h]
  · refine tameInv_trans (tameInv_consumeStore w) ?_
    exact ⟨fun h => by simpa using h, fun h => by simpa using h,
      ⟨[], by simp, rfl, rfl⟩, by simp, fun h => by simpa using h⟩
  · exact tameInv_consumeStore w

theorem tame_checkNoOlderData : Tame checkNoOlderData := by
  intro w
  unfold checkNoOlderData
  cases h : w.redisFaultNow <;> simp [h] <;> exact tameInv_consumeRedis w

theorem tame_setNoOlderData : Tame setNoOlderData := by
  intro w
  unfold setNoOlderData
  cases h : w.redisFaultNow <;> simp [h]
  · refine tameInv_trans (tameInv_consumeRedis w) ?_
    exact ⟨fun h => by simpa using h, fun h => by simpa using h,
      ⟨[], by simp, rfl, rfl⟩, by simp, fun h => by simpa using h⟩
  · exact tameInv_consumeRedis w

theorem tameInv_addTrace_fetch (w : World) (a b : Day) :
    TameInv w (w.addTrace (Ev.fetch a b)) :=
  ⟨fun h => by simpa [World.addTrace] using h, fun h => by simpa [World.addTrace] using h,
    ⟨[Ev.fetch a b], by simp [World.addTrace],
      by simp [countP_singleton, isGrantEv], by simp [countP_singleton, isRelEv]⟩,
    by simp [World.addTrace], fun h => by simpa [World.addTrace] using h⟩

theorem tame_fetchChartFromYahoo (a b : Day) : Tame (fetchChartFromYahoo a b) := by
  intro w
  unfold fetchChartFromYahoo
  cases h : w.fetchFn a b <;> simp [h] <;> exact tameInv_addTrace_fetch w a b

theorem tame_pushStaged (pts : List Point) : Tame (pushStaged pts) := by
  intro w
  exact ⟨fun h => by simpa [pushStaged] using h, fun h => by simpa [pushStaged] using h,
    ⟨[], by simp [pushStaged], rfl, rfl⟩, by simp [pushStaged],
    fun h => by simpa [pushStaged] using h⟩

theorem tame_setStagedEmpty : Tame setStagedEmpty := by
  intro w
  exact ⟨fun h => by simpa [setStagedEmpty] using h, fun h => by simpa [setStagedEmpty] using h,
    ⟨[], by simp [setStagedEmpty], rfl, rfl⟩, by simp [setStagedEmpty],
    fun h => by simpa [setStagedEmpty] using h⟩

theorem tame_getStaged : Tame getStaged := by
  intro w
  exact tameInv_refl w

/-!
## The lock region
-/

theorem acquire_spec (w : World) :
    ∃ b w1, acquireBackfillLock w = (Except.ok b, w1) ∧
      w1.trace = w.trace ++ [Ev.acq b] ∧
      w1.storeFaults = w.storeFaults ∧
      w1.points = w.points ∧
      (w.redisFaults = [] → w1.redisFaults = []) ∧
      (w.redisFaults = [] ∧ w.lockHeld = false → b = true ∧ w1.lockHeld = true) := by
  unfold acquireBackfillLock
  cases h1 : w.redisFaultNow
  · simp only [h1, Bool.false_eq_true, if_false]
    cases h2 : w.consumeRedis.lockHeld
    · simp only [h2, Bool.false_eq_true, if_false]
      cases h3 : w.consumeRedis.redisFaultNow
      · simp only [h3, Bool.false_eq_true, if_false]
        refine ⟨true, _, rfl, ?_, ?_, ?_, ?_, ?_⟩
        · simp [World.addTrace, World.consumeRedis]
        · simp [World.addTrace, World.consumeRedis]
        · simp [World.addTrace, World.consumeRedis]
        · intro h
          simp [World.addTrace, World.consumeRedis, h]
        · intro hc
          simp [World.addTrace, World.consumeRedis]
      · simp only [h3, if_true]
        refine ⟨false, _, rfl, ?_, ?_, ?_, ?_, ?_⟩
        · simp [World.addTrace, World.consumeRedis]
        · simp [World.addTrace, World.consumeRedis]
        · simp [World.addTrace, World.consumeRedis]
        · intro h
          simp [World.addTrace, World.consumeRedis, h]
        · intro hc
          exfalso
          have : w.consumeRedis.redisFaultNow = false := by
            simp [World.consumeRedis, World.redisFaultNow, hc.1]
          rw [this] at h3
          exact Bool.false_ne_true h3
    · simp only [h2, if_true]
      refine ⟨false, _, rfl, ?_, ?_, ?_, ?_, ?_⟩
      · simp [World.addTrace, World.consumeRedis]
      · simp [World.addTrace, World.consumeRedis]
      · simp [World.addTrace, World.consumeRedis]
      · intro h
        simp [World.addTrace, World.consumeRedis, h]
      · intro hc
        exfalso
        have : w.consumeRedis.lockHeld = false := by simp [World.consumeRedis, hc.2]
        rw [this] at h2
        exact Bool.false_ne_true h2
  · simp only [h1, if_true]
    refine ⟨false, _, rfl, ?_, ?_, ?_, ?_, ?_⟩
    · simp [World.addTrace, World.consumeRedis]
    · simp [World.addTrace, World.consumeRedis]
    · simp [World.addTrace, World.consumeRedis]
    · intro h
      simp [World.addTrace, World.consumeRedis, h]
    · intro hc
      exfalso
      have : w.redisFaultNow = false := by simp [World.redisFaultNow, hc.1]
      rw [this] at h1
      exact Bool.false_ne_true h1

theorem release_spec (w : World) :
    ∃ w1, releaseBackfillLock w = (Except.ok (), w1) ∧
      w1.trace = w.trace ++ [Ev.rel] ∧
      w1.storeFaults = w.storeFaults ∧
      w1.points = w.points ∧
      (w.redisFaults = [] → w1.redisFaults = [] ∧ w1.lockHeld = false) := by
  unfold releaseBackfillLock
  cases h : w.redisFaultNow
  · simp only [h, Bool.false_eq_true, if_false]
    refine ⟨_, rfl, ?_, ?_, ?_, ?_⟩
    · simp [World.addTrace, World.consumeRedis]
    · simp [World.addTrace, World.consumeRedis]
    · simp [World.addTrace, World.consumeRedis]
    · intro hc
      simp [World.addTrace, World.consumeRedis, hc]
  · simp only [h, if_true]
    refine ⟨_, rfl, ?_, ?_, ?_, ?_⟩
    · simp [World.addTrace, World.consumeRedis]
    · simp [World.addTrace, World.consumeRedis]
    · simp [World.addTrace, World.consumeRedis]
    · intro hc
      exfalso
      have : w.redisFaultNow = false := by simp [World.redisFaultNow, hc]
      rw [this] at h
      exact Bool.false_ne_true h

/-- The `if (lockAcquired) { try ... finally release }` region always
succeeds, and satisfies the whole-call invariant as long as the body
touches neither the lock nor the acquire/release trace. -/
theorem lockRegion_spec {body : EStep Unit} (hb : Tame body) :
    SafeStep (lockRegion body) := by
  intro w
  obtain ⟨b, w1, hacq, htr1, hsf1, hpts1, hrf1, hgr1⟩ := acquire_spec w
  unfold lockRegion
  simp only [bind_eStep]
  rw [eBind_ok hacq]
  cases b
  · simp only [Bool.false_eq_true, if_false]
    refine ⟨w1, rfl, ?_, ?_, ?_, ?_⟩
    · intro h; rw [hsf1]; exact h
    · intro h; rw [hpts1]; exact h
    · exact ⟨[Ev.acq false], htr1, by simp [countP_singleton, isGrantEv, isRelEv]⟩
    · intro hc
      exact absurd (hgr1 hc).1 (by simp)
  · simp only [if_true]
    have hbody : TameInv w1 (body w1).2 := hb w1
    obtain ⟨ebody, hetr, heg, her⟩ := hbody.tr
    obtain ⟨w3, hrel, htr3, hsf3, hpts3, hlf3⟩ := release_spec (body w1).2
    refine ⟨w3, ?_, ?_, ?_, ?_, ?_⟩
    · simp only [eTryFinally]
      exact hrel
    · intro h
      rw [hsf3]
      exact hbody.sf (by rw [hsf1]; exact h)
    · intro h
      rw [hpts3]
      exact hbody.nodup (by rw [hpts1]; exact h)
    · refine ⟨[Ev.acq true] ++ ebody ++ [Ev.rel], ?_, ?_⟩
      · rw [htr3, hetr, htr1]
        simp [List.append_assoc]
      · simp [List.countP_append, countP_singleton, isGrantEv, isRelEv, heg, her]
    · intro hc
      have h1 := hgr1 hc
      have h2 : (body w1).2.redisFaults = [] := hbody.rf (hrf1 hc.1)
      exact hlf3 h2

/-!
## Safety of the backfill blocks
-/

theorem tame_olderFetchBody (a b : Day) : Tame (olderFetchBody a b) := by
  unfold olderFetchBody
  simp only [bind_eStep]
  apply tame_bind (tame_fetchChartFromYahoo a b)
  intro res
  dsimp only
  apply tame_ite tame_setNoOlderData
  exact tame_bind (tame_insertPoints _) fun _ =>
    tame_bind (tame_pushStaged _) fun _ => tame_updateRange _ _

theorem tame_newerFetchBody (a b : Day) : Tame (newerFetchBody a b) := by
  unfold newerFetchBody
  simp only [bind_eStep]
  apply tame_bind (tame_fetchChartFromYahoo a b)
  intro res
  dsimp only
  apply tame_ite (tame_ePure ())
  exact tame_bind (tame_insertPoints _) fun _ =>
    tame_bind (tame_pushStaged _) fun _ => tame_updateRange _ _

theorem tame_initialOlderBody (p1 p2 : Day) (nd : Option Day) :
    Tame (initialOlderBody p1 p2 nd) := by
  unfold initialOlderBody
  simp only [bind_eStep]
  apply tame_bind (tame_fetchChartFromYahoo _ _)
  intro res
  dsimp only
  apply tame_ite (tame_ePure ())
  exact tame_bind (tame_insertPoints _) fun _ =>
    tame_bind (tame_pushStaged _) fun _ => tame_updateRange _ _

theorem tame_initialNewerBody (od : Option Day) (p1 p2 : Day) :
    Tame (initialNewerBody od p1 p2) := by
  unfold initialNewerBody
  simp only [bind_eStep]
  apply tame_bind (tame_fetchChartFromYahoo _ _)
  intro res
  dsimp only
  apply tame_ite (tame_ePure ())
  exact tame_bind (tame_insertPoints _) fun _ =>
    tame_bind (tame_pushStaged _) fun _ => tame_updateRange _ _

theorem check_shape (w : World) : ∃ b w1, checkNoOlderData w = (Except.ok b, w1) := by
  unfold checkNoOlderData
  cases h : w.redisFaultNow
  · simp only [h, Bool.false_eq_true, if_false]
    exact ⟨_, _, rfl⟩
  · simp only [h, if_true]
    exact ⟨_, _, rfl⟩

theorem safe_bind_tame {α : Type} {x : EStep α} {f : α → EStep Unit}
    (hx : Tame x) (hshape : ∀ w, ∃ a w', x w = (Except.ok a, w'))
    (hf : ∀ a, SafeStep (f a)) : SafeStep (eBind x f) := by
  intro w
  obtain ⟨a, w1, hx1⟩ := hshape w
  have h1 : TameInv w w1 := by have := hx w; rwa [hx1] at this
  obtain ⟨w2, hfa, hinv2⟩ := hf a w1
  refine ⟨w2, ?_, stepInv_trans (tameInv_toStepInv h1) hinv2⟩
  rw [eBind_ok hx1, hfa]

theorem safe_olderEdgeBlock (p1 o : Day) : SafeStep (olderEdgeBlock p1 o) := by
  unfold olderEdgeBlock
  simp only [bind_eStep]
  refine safe_bind_tame tame_checkNoOlderData check_shape ?_
  intro flagged
  exact safe_ite safe_ePure
    (safe_ite (lockRegion_spec (tame_olderFetchBody p1 (o - 1))) safe_ePure)

theorem safe_newerEdgeBlock (n p2 : Day) : SafeStep (newerEdgeBlock n p2) := by
  unfold newerEdgeBlock
  exact safe_ite (lockRegion_spec (tame_newerFetchBody (n + 1) p2)) safe_ePure

theorem safe_olderSlot (p1 : Day) (od : Option Day) : SafeStep (olderSlot p1 od) := by
  cases od with
  | none => simp only [olderSlot]; exact safe_ePure
  | some o =>
    simp only [olderSlot]
    exact safe_ite (safe_olderEdgeBlock p1 o) safe_ePure

theorem safe_newerSlot (p2 : Day) (nd : Option Day) : SafeStep (newerSlot p2 nd) := by
  cases nd with
  | none => simp only [newerSlot]; exact safe_ePure
  | some n =>
    simp only [newerSlot]
    exact safe_ite (safe_newerEdgeBlock n p2) safe_ePure

theorem safe_initialOlderSlot (p1 p2 : Day) (od nd : Option Day) :
    SafeStep (initialOlderSlot p1 p2 od nd) := by
  cases od with
  | none =>
    simp only [initialOlderSlot]
    exact lockRegion_spec (tame_initialOlderBody p1 p2 nd)
  | some o => simp only [initialOlderSlot]; exact safe_ePure

theorem safe_initialNewerSlot (p1 p2 : Day) (od nd : Option Day) :
    SafeStep (initialNewerSlot p1 p2 od nd) := by
  cases nd with
  | none =>
    simp only [initialNewerSlot]
    exact lockRegion_spec (tame_initialNewerBody od p1 p2)
  | some n => simp only [initialNewerSlot]; exact safe_ePure

/-!
## Deterministic behaviour of the store under no faults
-/

theorem storeFaultNow_of_nil {w : World} (h : w.storeFaults = []) :
    w.storeFaultNow = false := by
  simp [World.storeFaultNow, h]

theorem redisFaultNow_of_nil {w : World} (h : w.redisFaults = []) :
    w.redisFaultNow = false := by
  simp [World.redisFaultNow, h]

theorem ensure_ok {w : World} (h : w.storeFaults = []) :
    ensureYahooChartTables w = (Except.ok (), w) := by
  simp [ensureYahooChartTables, storeFaultNow_of_nil h, consumeStore_of_nil h]

theorem getStoredRange_ok {w : World} (h : w.storeFaults = []) :
    getStoredRange w = (Except.ok w.series, w) := by
  simp [getStoredRange, storeFaultNow_of_nil h, consumeStore_of_nil h]

theorem getPoints_ok {w : World} (h : w.storeFaults = []) (p1 p2 : Day) :
    getPoints p1 p2 w = (Except.ok (getPointsPure w.points p1 p2), w) := by
  simp [getPoints, storeFaultNow_of_nil h, consumeStore_of_nil h]

theorem insertPoints_nofault {w : World} (pts : List Point) (h : w.storeFaults = []) :
    ∃ w', insertPoints pts w = (Except.ok (), w') ∧
      w'.storeFaults = [] ∧ w'.trace = w.trace ∧ w'.redisFaults = w.redisFaults ∧
      w'.lockHeld = w.lockHeld ∧ w'.fetchFn = w.fetchFn ∧ w'.noOlder = w.noOlder := by
  by_cases hp : pts = []
  · exact ⟨w, by simp [insertPoints, hp], h, rfl, rfl, rfl, rfl, rfl⟩
  · have heq : insertPoints pts w = (Except.ok (), { w with
        series := some (w.series.getD (none, none)),
        points := pts.foldl mapSet w.points }) := by
      simp [insertPoints, hp, storeFaultNow_of_nil h, consumeStore_of_nil h]
    exact ⟨_, heq, by simp [h], by simp, by simp, by simp, by simp, by simp⟩

theorem updateRange_nofault {w : World} (o n : Option Day) (h : w.storeFaults = []) :
    ∃ w', updateRange o n w = (Except.ok (), w') ∧
      w'.storeFaults = [] ∧ w'.trace = w.trace ∧ w'.redisFaults = w.redisFaults ∧
      w'.lockHeld = w.lockHeld ∧ w'.fetchFn = w.fetchFn ∧ w'.noOlder = w.noOlder := by
  have heq : updateRange o n w = (Except.ok (), { w with
      series := w.series.map (fun rn => widenPair rn (o, n)) }) := by
    simp [updateRange, storeFaultNow_of_nil h, consumeStore_of_nil h]
  exact ⟨_, heq, by simp [h], by simp, by simp, by simp, by simp, by simp⟩

theorem initializeSeriesRange_nofault {w : World} (o n : Day) (h : w.storeFaults = []) :
    ∃ w', initializeSeriesRange o n w = (Except.ok (), w') ∧
      w'.storeFaults = [] ∧ w'.trace = w.trace ∧ w'.redisFaults = w.redisFaults ∧
      w'.lockHeld = w.lockHeld ∧ w'.fetchFn = w.fetchFn ∧ w'.noOlder = w.noOlder := by
  have heq : initializeSeriesRange o n w = (Except.ok (), { w with
      series := some (match w.series with
        | none => (some o, some n)
        | some rn => widenPair rn (some o, some n)) }) := by
    simp [initializeSeriesRange, storeFaultNow_of_nil h, consumeStore_of_nil h]
  exact ⟨_, heq, by simp [h], by simp, by simp, by simp, by simp, by simp⟩

/-!
## Master lemmas for `getChartData`
-/

theorem mem_sortFilter {l : List Point} {p1 p2 : Day} {q : Point}
    (hq : q ∈ sortByDate (l.filter fun q => decide (p1 ≤ q.date) && decide (q.date ≤ p2))) :
    p1 ≤ q.date ∧ q.date ≤ p2 := by
  rw [mem_sortByDate] at hq
  have := (List.mem_filter.mp hq).2
  simpa using this

/-- The warm path never raises when the store is healthy, whatever the
upstream and Redis do; the returned sequence is sorted, duplicate-free on
dates (when the stored table is), and confined to the requested window. -/
theorem warmBackfill_spec (p1 p2 : Day) (od nd : Option Day) (w : World)
    (hsf : w.storeFaults = []) :
    ∃ pts w', warmBackfill p1 p2 od nd w = (Except.ok pts, w') ∧ StepInv w w' ∧
      List.Sorted ptLE pts ∧ keysNodup pts ∧ ∀ q ∈ pts, p1 ≤ q.date ∧ q.date ≤ p2 := by
  obtain ⟨w0, h0, i0⟩ : ∃ w0, setStagedEmpty w = (Except.ok (), w0) ∧ StepInv w w0 :=
    ⟨_, rfl, tameInv_toStepInv (tame_setStagedEmpty w)⟩
  obtain ⟨w1, h1, i1⟩ := safe_olderSlot p1 od w0
  obtain ⟨w2, h2, i2⟩ := safe_newerSlot p2 nd w1
  obtain ⟨w3, h3, i3⟩ := safe_initialOlderSlot p1 p2 od nd w2
  obtain ⟨w4, h4, i4⟩ := safe_initialNewerSlot p1 p2 od nd w3
  have hsf4 : w4.storeFaults = [] := i4.sf (i3.sf (i2.sf (i1.sf (i0.sf hsf))))
  have h5 := getPoints_ok hsf4 p1 p2
  have h6 : getStaged w4 = (Except.ok w4.staged, w4) := rfl
  unfold warmBackfill
  simp only [bind_eStep, eBind_ok h0, eBind_ok h1, eBind_ok h2, eBind_ok h3, eBind_ok h4,
    eBind_ok h5, eBind_ok h6]
  refine ⟨_, w4, rfl, stepInv_trans i0 (stepInv_trans i1 (stepInv_trans i2 (stepInv_trans i3 i4))), ?_, ?_, ?_⟩
  · exact sortByDate_sorted _
  · exact sortByDate_keysNodup
      (List.Nodup.sublist (List.Sublist.map Point.date (List.filter_sublist _))
        (mergePoints_keysNodup _ _))
  · intro q hq
    exact mem_sortFilter hq

/-- The whole warm resolution (series row present, store healthy) returns
without raising, for arbitrary upstream and Redis behaviour. -/
theorem getChartData_warm (p1 p2 : Day) (w : World) (rn : Option Day × Option Day)
    (hser : w.series = some rn) (hsf : w.storeFaults = []) :
    ∃ pts w', getChartData p1 p2 w = (Except.ok pts, w') ∧ StepInv w w' ∧
      List.Sorted ptLE pts ∧ (keysNodup w.points → keysNodup pts) ∧
      ∀ q ∈ pts, p1 ≤ q.date ∧ q.date ≤ p2 := by
  have hr : getStoredRange w = (Except.ok (some rn), w) := by
    rw [getStoredRange_ok hsf, hser]
  unfold getChartData
  simp only [bind_eStep, eBind_ok (ensure_ok hsf), eBind_ok hr,
    eBind_ok (getPoints_ok hsf p1 p2)]
  by_cases hc : hasCompleteCoverage rn p1 p2 (getPointsPure w.points p1 p2) = true
  · rw [if_pos hc]
    exact ⟨_, w, rfl, stepInv_refl w, getPointsPure_sorted _ p1 p2,
      fun h => getPointsPure_keysNodup h p1 p2, fun q hq => (mem_getPointsPure.mp hq).2⟩
  · rw [if_neg hc]
    obtain ⟨pts, w', heq, hinv, hsort, hnd, hrange⟩ := warmBackfill_spec p1 p2 rn.1 rn.2 w hsf
    exact ⟨pts, w', heq, hinv, hsort, fun _ => hnd, hrange⟩

/-- With a healthy store and no series row, `getChartData` is exactly the
cold-start path. -/
theorem getChartData_cold_eq {w : World} (p1 p2 : Day)
    (hser : w.series = none) (hsf : w.storeFaults = []) :
    getChartData p1 p2 w = coldStartPath p1 p2 w := by
  have hr : getStoredRange w = (Except.ok none, w) := by
    rw [getStoredRange_ok hsf, hser]
  unfold getChartData
  simp only [bind_eStep, eBind_ok (ensure_ok hsf), eBind_ok hr]

/-- A cold-start upstream failure propagates unchanged. -/
theorem coldStart_err {w : World} {p1 p2 : Day} {e : Err}
    (hf : w.fetchFn p1 p2 = Except.error e) :
    coldStartPath p1 p2 w = (Except.error e, w.addTrace (Ev.fetch p1 p2)) := by
  unfold coldStartPath
  simp only [bind_eStep]
  rw [eBind_err (show fetchChartFromYahoo p1 p2 w = (Except.error e, w.addTrace (Ev.fetch p1 p2))
    by simp [fetchChartFromYahoo, hf])]

/-- A cold start whose fetch sanitizes to zero points returns the empty
sequence without error, before any store write. -/
theorem coldStart_empty {w : World} {p1 p2 : Day} {qs : List (Option Point)}
    (hf : w.fetchFn p1 p2 = Except.ok qs) (hq : sanitizeQuotes qs = []) :
    coldStartPath p1 p2 w = (Except.ok [], w.addTrace (Ev.fetch p1 p2)) := by
  unfold coldStartPath
  simp only [bind_eStep]
  rw [eBind_ok (show fetchChartFromYahoo p1 p2 w = (Except.ok qs, w.addTrace (Ev.fetch p1 p2))
    by simp [fetchChartFromYahoo, hf])]
  simp [hq, ePure]

/-- A successful, nonempty cold start returns the sanitized quotes exactly
as fetched. -/
theorem coldStart_ok {w : World} {p1 p2 : Day} {qs : List (Option Point)}
    (hsf : w.storeFaults = []) (hf : w.fetchFn p1 p2 = Except.ok qs)
    (hq : sanitizeQuotes qs ≠ []) :
    ∃ w', coldStartPath p1 p2 w = (Except.ok (sanitizeQuotes qs), w') := by
  have hfetch : fetchChartFromYahoo p1 p2 w = (Except.ok qs, w.addTrace (Ev.fetch p1 p2)) := by
    simp [fetchChartFromYahoo, hf]
  have hsf1 : (w.addTrace (Ev.fetch p1 p2)).storeFaults = [] := by simp [World.addTrace, hsf]
  obtain ⟨w2, hins, hsf2, -, -, -, -, -⟩ := insertPoints_nofault (sanitizeQuotes qs) hsf1
  obtain ⟨w3, hinit, -, -, -, -, -, -⟩ :=
    initializeSeriesRange_nofault (minDate ((sanitizeQuotes qs).map Point.date))
      (maxDate ((sanitizeQuotes qs).map Point.date)) hsf2
  unfold coldStartPath
  simp only [bind_eStep, eBind_ok hfetch]
  rw [if_neg hq]
  simp only [bind_eStep, eBind_ok hins, eBind_ok hinit]
  exact ⟨w3, rfl⟩

theorem tame_coldStartPath (p1 p2 : Day) : Tame (coldStartPath p1 p2) := by
  unfold coldStartPath
  simp only [bind_eStep]
  apply tame_bind (tame_fetchChartFromYahoo p1 p2)
  intro res
  dsimp only
  apply tame_ite (tame_ePure _)
  exact tame_bind (tame_insertPoints _) fun _ =>
    tame_bind (tame_initializeSeriesRange _ _) fun _ => tame_ePure _

theorem gstep_warmBackfill (p1 p2 : Day) (od nd : Option Day) :
    GStep (warmBackfill p1 p2 od nd) := by
  unfold warmBackfill
  simp only [bind_eStep]
  apply gstep_bind (tame_toGStep tame_setStagedEmpty); intro _
  apply gstep_bind (safe_toGStep (safe_olderSlot p1 od)); intro _
  apply gstep_bind (safe_toGStep (safe_newerSlot p2 nd)); intro _
  apply gstep_bind (safe_toGStep (safe_initialOlderSlot p1 p2 od nd)); intro _
  apply gstep_bind (safe_toGStep (safe_initialNewerSlot p1 p2 od nd)); intro _
  apply gstep_bind (tame_toGStep (tame_getPoints p1 p2)); intro _
  apply gstep_bind (tame_toGStep tame_getStaged); intro _
  exact gstep_ePure _

/-- Every `getChartData` execution — under arbitrary store, Redis, and
upstream behaviour, and whether it returns or raises — preserves the
whole-call invariant. -/
theorem gstep_getChartData (p1 p2 : Day) : GStep (getChartData p1 p2) := by
  unfold getChartData
  simp only [bind_eStep]
  apply gstep_bind (tame_toGStep tame_ensure); intro _
  apply gstep_bind (tame_toGStep tame_getStoredRange); intro storedRange
  cases storedRange with
  | none => exact tame_toGStep (tame_coldStartPath p1 p2)
  | some rn =>
    dsimp only
    apply gstep_bind (tame_toGStep (tame_getPoints p1 p2)); intro dbPoints
    exact gstep_ite (gstep_ePure _) (gstep_warmBackfill p1 p2 rn.1 rn.2)

/-!
## Deterministic runs under a healthy Redis and a free lock
-/

theorem acquire_grant {w : World} (hr : w.redisFaults = []) (hl : w.lockHeld = false) :
    acquireBackfillLock w =
      (Except.ok true, ({ w with lockHeld := true }).addTrace (Ev.acq true)) := by
  simp [acquireBackfillLock, redisFaultNow_of_nil hr, consumeRedis_of_nil hr, hl]

theorem release_free {w : World} (hr : w.redisFaults = []) :
    releaseBackfillLock w =
      (Except.ok (), ({ w with lockHeld := false }).addTrace Ev.rel) := by
  simp [releaseBackfillLock, redisFaultNow_of_nil hr, consumeRedis_of_nil hr]

/-- Running a lock region when Redis is healthy and the lock is free:
the lock is granted, the body runs, the lock is released. -/
theorem lockRegion_run {body : EStep Unit} {bodyEvs : List Ev}
    (hbody : ∀ w0 : World, w0.storeFaults = [] → ∃ r w1, body w0 = (r, w1) ∧
      w1.trace = w0.trace ++ bodyEvs ∧ w1.redisFaults = w0.redisFaults ∧
      w1.lockHeld = w0.lockHeld ∧ w1.storeFaults = [])
    (w : World) (hsf : w.storeFaults = []) (hrf : w.redisFaults = [])
    (hlock : w.lockHeld = false) :
    ∃ w', lockRegion body w = (Except.ok (), w') ∧
      w'.trace = w.trace ++ ([Ev.acq true] ++ bodyEvs ++ [Ev.rel]) ∧
      w'.redisFaults = [] ∧ w'.lockHeld = false ∧ w'.storeFaults = [] := by
  have hacq := acquire_grant hrf hlock
  obtain ⟨r, w2, hb, htr2, hrf2, hl2, hsf2⟩ :=
    hbody (({ w with lockHeld := true }).addTrace (Ev.acq true)) (by simp [World.addTrace, hsf])
  have hrel := release_free (w := w2) (by rw [hrf2]; simp [World.addTrace, hrf])
  unfold lockRegion
  simp only [bind_eStep, eBind_ok hacq, if_true]
  refine ⟨({ w2 with lockHeld := false }).addTrace Ev.rel, ?_, ?_, ?_, ?_, ?_⟩
  · simp only [eTryFinally, hb]
    exact hrel
  · simp [World.addTrace, htr2, List.append_assoc]
  · rw [hrf2]
    simp [World.addTrace, hrf]
  · simp [World.addTrace]
  · simp [World.addTrace, hsf2]

/-- The `oldestDate == null` initial-older body with a null `newestDate`
issues one fetch for `[p1, -1]` (epoch minus one day), whatever the
upstream returns, with the store healthy. -/
theorem initialOlderBody_run (p1 p2 : Day) (hp2 : 0 ≤ p2) :
    ∀ w0 : World, w0.storeFaults = [] →
      ∃ r w1, initialOlderBody p1 p2 none w0 = (r, w1) ∧
        w1.trace = w0.trace ++ [Ev.fetch p1 (-1)] ∧ w1.redisFaults = w0.redisFaults ∧
        w1.lockHeld = w0.lockHeld ∧ w1.storeFaults = [] := by
  intro w0 hsf0
  unfold initialOlderBody
  simp only [bind_eStep]
  have he : (if p2 < (0 : Day) then p2 else (-1 : Day)) = -1 := if_neg (not_lt.mpr hp2)
  rw [he]
  cases hf : w0.fetchFn p1 (-1) with
  | error e =>
    rw [eBind_err (show fetchChartFromYahoo p1 (-1) w0 =
      (Except.error e, w0.addTrace (Ev.fetch p1 (-1))) by simp [fetchChartFromYahoo, hf])]
    exact ⟨_, _, rfl, by simp [World.addTrace], by simp [World.addTrace],
      by simp [World.addTrace], by simp [World.addTrace, hsf0]⟩
  | ok qs =>
    rw [eBind_ok (show fetchChartFromYahoo p1 (-1) w0 =
      (Except.ok qs, w0.addTrace (Ev.fetch p1 (-1))) by simp [fetchChartFromYahoo, hf])]
    by_cases hq : sanitizeQuotes qs = []
    · rw [if_pos hq]
      exact ⟨_, _, rfl, by simp [World.addTrace], by simp [World.addTrace],
        by simp [World.addTrace], by simp [World.addTrace, hsf0]⟩
    · rw [if_neg hq]
      obtain ⟨w2, hins, hsf2, htr2, hrf2, hl2, -, -⟩ :=
        insertPoints_nofault (sanitizeQuotes qs) (w := w0.addTrace (Ev.fetch p1 (-1)))
          (by simp [World.addTrace, hsf0])
      have hpush : pushStaged (sanitizeQuotes qs) w2 =
          (Except.ok (), { w2 with staged := w2.staged ++ sanitizeQuotes qs }) := rfl
      obtain ⟨w4, hupd, hsf4, htr4, hrf4, hl4, -, -⟩ :=
        updateRange_nofault (some (minDate ((sanitizeQuotes qs).map Point.date))) none
          (w := { w2 with staged := w2.staged ++ sanitizeQuotes qs }) (by simp [hsf2])
      simp only [bind_eStep, eBind_ok hins, eBind_ok hpush]
      refine ⟨_, w4, hupd, ?_, ?_, ?_, hsf4⟩
      · rw [htr4]
        simp only []
        rw [htr2]
        simp [World.addTrace]
      · rw [hrf4]
        simp only []
        rw [hrf2]
        simp [World.addTrace]
      · rw [hl4]
        simp only []
        rw [hl2]
        simp [World.addTrace]

/-- The `newestDate == null` initial-newer body with a null `oldestDate`
issues one fetch for exactly `[p1, p2]` when `0 < p1`. -/
theorem initialNewerBody_run (p1 p2 : Day) (hp1 : 0 < p1) :
    ∀ w0 : World, w0.storeFaults = [] →
      ∃ r w1, initialNewerBody none p1 p2 w0 = (r, w1) ∧
        w1.trace = w0.trace ++ [Ev.fetch p1 p2] ∧ w1.redisFaults = w0.redisFaults ∧
        w1.lockHeld = w0.lockHeld ∧ w1.storeFaults = [] := by
  intro w0 hsf0
  unfold initialNewerBody
  simp only [bind_eStep]
  have he : (if (0 : Day) < p1 then p1 else (1 : Day)) = p1 := if_pos hp1
  rw [he]
  cases hf : w0.fetchFn p1 p2 with
  | error e =>
    rw [eBind_err (show fetchChartFromYahoo p1 p2 w0 =
      (Except.error e, w0.addTrace (Ev.fetch p1 p2)) by simp [fetchChartFromYahoo, hf])]
    exact ⟨_, _, rfl, by simp [World.addTrace], by simp [World.addTrace],
      by simp [World.addTrace], by simp [World.addTrace, hsf0]⟩
  | ok qs =>
    rw [eBind_ok (show fetchChartFromYahoo p1 p2 w0 =
      (Except.ok qs, w0.addTrace (Ev.fetch p1 p2)) by simp [fetchChartFromYahoo, hf])]
    by_cases hq : sanitizeQuotes qs = []
    · rw [if_pos hq]
      exact ⟨_, _, rfl, by simp [World.addTrace], by simp [World.addTrace],
        by simp [World.addTrace], by simp [World.addTrace, hsf0]⟩
    · rw [if_neg hq]
      obtain ⟨w2, hins, hsf2, htr2, hrf2, hl2, -, -⟩ :=
        insertPoints_nofault (sanitizeQuotes qs) (w := w0.addTrace (Ev.fetch p1 p2))
          (by simp [World.addTrace, hsf0])
      have hpush : pushStaged (sanitizeQuotes qs) w2 =
          (Except.ok (), { w2 with staged := w2.staged ++ sanitizeQuotes qs }) := rfl
      obtain ⟨w4, hupd, hsf4, htr4, hrf4, hl4, -, -⟩ :=
        updateRange_nofault none (some (maxDate ((sanitizeQuotes qs).map Point.date)))
          (w := { w2 with staged := w2.staged ++ sanitizeQuotes qs }) (by simp [hsf2])
      simp only [bind_eStep, eBind_ok hins, eBind_ok hpush]
      refine ⟨_, w4, hupd, ?_, ?_, ?_, hsf4⟩
      · rw [htr4]
        simp only []
        rw [htr2]
        simp [World.addTrace]
      · rw [hrf4]
        simp only []
        rw [hrf2]
        simp [World.addTrace]
      · rw [hl4]
        simp only []
        rw [hl2]
        simp [World.addTrace]

theorem initialOlderSlot_run (p1 p2 : Day) (hp2 : 0 ≤ p2) (w : World)
    (hsf : w.storeFaults = []) (hrf : w.redisFaults = []) (hlock : w.lockHeld = false) :
    ∃ w', initialOlderSlot p1 p2 none none w = (Except.ok (), w') ∧
      w'.trace = w.trace ++ ([Ev.acq true] ++ [Ev.fetch p1 (-1)] ++ [Ev.rel]) ∧
      w'.redisFaults = [] ∧ w'.lockHeld = false ∧ w'.storeFaults = [] := by
  simp only [initialOlderSlot]
  exact lockRegion_run (initialOlderBody_run p1 p2 hp2) w hsf hrf hlock

theorem initialNewerSlot_run (p1 p2 : Day) (hp1 : 0 < p1) (w : World)
    (hsf : w.storeFaults = []) (hrf : w.redisFaults = []) (hlock : w.lockHeld = false) :
    ∃ w', initialNewerSlot p1 p2 none none w = (Except.ok (), w') ∧
      w'.trace = w.trace ++ ([Ev.acq true] ++ [Ev.fetch p1 p2] ++ [Ev.rel]) ∧
      w'.redisFaults = [] ∧ w'.lockHeld = false ∧ w'.storeFaults = [] := by
  simp only [initialNewerSlot]
  exact lockRegion_run (initialNewerBody_run p1 p2 hp1) w hsf hrf hlock

/-!
## Claim theorems
-/

/-- C1 (counterexample): when the lock store throws during acquisition, the
source returns `false` — the acquisition is treated as denied, not granted,
and the older-edge backfill issues no upstream fetch. -/
theorem acquire_fail_open_counterexample :
    (acquireBackfillLock { cw1 with redisFaults := [true] }).1 = Except.ok false ∧
    (acquireBackfillLock { cw1 with redisFaults := [true] }).1 ≠ Except.ok true ∧
    ((olderEdgeBlock 5 16 cw1).2).trace.filter isFetchEv = [] := by
  have hx : (acquireBackfillLock { cw1 with redisFaults := [true] }).1 = Except.ok false := rfl
  refine ⟨hx, ?_, rfl⟩
  rw [hx]
  simp

/-- C1 (amended): a lock-store failure during acquisition is treated as
denied (fail closed): `acquireBackfillLock` returns `false` whenever its
`setNX` throws, and the older-edge backfill block then skips the fetch
(the trace gains only the denied acquisition event). -/
theorem acquire_lock_store_failure_fail_closed (w : World) (p1 o : Day)
    (hrf : w.redisFaults = [false, true]) (hno : w.noOlder = false)
    (hgap : p1 ≤ o - 1) :
    ∃ w', olderEdgeBlock p1 o w = (Except.ok (), w') ∧
      w'.trace = w.trace ++ [Ev.acq false] ∧
      ∀ w2 : World, w2.redisFaultNow = true →
        (acquireBackfillLock w2).1 = Except.ok false := by
  have hchk : checkNoOlderData w = (Except.ok false, { w with redisFaults := [true] }) := by
    simp [checkNoOlderData, World.redisFaultNow, World.consumeRedis, hrf, hno]
  have hacq : acquireBackfillLock { w with redisFaults := [true] } =
      (Except.ok false, ({ w with redisFaults := [] }).addTrace (Ev.acq false)) := by
    simp [acquireBackfillLock, World.redisFaultNow, World.consumeRedis, World.addTrace]
  unfold olderEdgeBlock
  simp only [bind_eStep, eBind_ok hchk, Bool.false_eq_true, if_false]
  rw [if_pos hgap]
  unfold lockRegion
  simp only [bind_eStep, eBind_ok hacq, Bool.false_eq_true, if_false]
  refine ⟨_, rfl, ?_, ?_⟩
  · simp [World.addTrace]
  · intro w2 hf2
    simp [acquireBackfillLock, hf2]

/-- C1 (witness): the amended behaviour at a concrete world. -/
theorem acquire_fail_closed_witness :
    ∃ w', olderEdgeBlock 5 16 cw1 = (Except.ok (), w') ∧
      w'.trace = cw1.trace ++ [Ev.acq false] ∧
      ∀ w2 : World, w2.redisFaultNow = true →
        (acquireBackfillLock w2).1 = Except.ok false :=
  acquire_lock_store_failure_fail_closed cw1 5 16 rfl rfl (by decide)

/-- C3 (counterexample): with a series row whose bounds are both null,
resolving `[100, 110]` issues two upstream fetches, and the first one is
for `[100, -1]` — a malformed sub-range derived from the null `newestDate`
coerced to the epoch — not for the requested bounds. -/
theorem nullBounds_counterexample :
    ((getChartData 100 110 cw3).2).trace.filter isFetchEv =
      [Ev.fetch 100 (-1), Ev.fetch 100 110] ∧
    Ev.fetch 100 (-1) ≠ Ev.fetch 100 110 := by
  exact ⟨rfl, by decide⟩

/-- C3 (amended): when the series row exists with both bounds null, both
`needOlder` and `needNewer` are treated as true; the call then issues an
older-initial fetch for `[from, -1]` (the day before the epoch, from the
JavaScript null-date coercion) followed by a newer-initial fetch for
exactly the requested bounds `[from, to]`. -/
theorem nullBounds_initial_fetch_spec (p1 p2 : Day) (w : World)
    (hser : w.series = some (none, none)) (hsf : w.storeFaults = [])
    (hrf : w.redisFaults = []) (hlock : w.lockHeld = false)
    (hp1 : 0 < p1) (hle : p1 ≤ p2) :
    ∃ r w', getChartData p1 p2 w = (r, w') ∧
      w'.trace = w.trace ++
        [Ev.acq true, Ev.fetch p1 (-1), Ev.rel, Ev.acq true, Ev.fetch p1 p2, Ev.rel] := by
  have hr : getStoredRange w = (Except.ok (some (none, none)), w) := by
    rw [getStoredRange_ok hsf, hser]
  have hcov : hasCompleteCoverage (none, none) p1 p2 (getPointsPure w.points p1 p2) = false := rfl
  unfold getChartData
  simp only [bind_eStep, eBind_ok (ensure_ok hsf), eBind_ok hr,
    eBind_ok (getPoints_ok hsf p1 p2), hcov, Bool.false_eq_true, if_false]
  unfold warmBackfill
  simp only [bind_eStep]
  have h0 : setStagedEmpty w = (Except.ok (), { w with staged := [] }) := rfl
  have h1 : olderSlot p1 none ({ w with staged := [] }) =
      (Except.ok (), { w with staged := [] }) := rfl
  have h2 : newerSlot p2 none ({ w with staged := [] }) =
      (Except.ok (), { w with staged := [] }) := rfl
  obtain ⟨w3, h3, htr3, hrf3, hl3, hsf3⟩ :=
    initialOlderSlot_run p1 p2 (le_trans (le_of_lt hp1) hle) ({ w with staged := [] }) hsf hrf hlock
  obtain ⟨w4, h4, htr4, hrf4, hl4, hsf4⟩ := initialNewerSlot_run p1 p2 hp1 w3 hsf3 hrf3 hl3
  have h6 : getStaged w4 = (Except.ok w4.staged, w4) := rfl
  simp only [eBind_ok h0, eBind_ok h1, eBind_ok h2, eBind_ok h3, eBind_ok h4,
    eBind_ok (getPoints_ok hsf4 p1 p2), eBind_ok h6]
  refine ⟨_, w4, rfl, ?_⟩
  rw [htr4, htr3]
  simp [List.append_assoc]

/-- C3 (witness): the amended behaviour at a concrete world. -/
theorem nullBounds_witness :
    ∃ r w', getChartData 100 110 cw3 = (r, w') ∧
      w'.trace = cw3.trace ++
        [Ev.acq true, Ev.fetch 100 (-1), Ev.rel, Ev.acq true, Ev.fetch 100 110, Ev.rel] :=
  nullBounds_initial_fetch_spec 100 110 cw3 rfl rfl rfl rfl (by decide) (by decide)

theorem retryGo_step_throttle {α : Type} (op : Nat → Except JsError α)
    {attempt fuel : Nat} {e : JsError}
    (hop : op attempt = Except.error e) (hrl : isRateLimitError e = true)
    (hlt : attempt < MAX_RETRIES) :
    retryGo op attempt (fuel + 1) =
      ⟨(retryGo op (attempt + 1) fuel).result, (retryGo op (attempt + 1) fuel).calls + 1,
        RETRY_DELAY_MS * 2 ^ attempt :: (retryGo op (attempt + 1) fuel).delays⟩ := by
  simp [retryGo, hop, hrl, hlt]

theorem retryGo_step_stop {α : Type} (op : Nat → Except JsError α)
    {attempt fuel : Nat} {e : JsError}
    (hop : op attempt = Except.error e)
    (hstop : ¬(isRateLimitError e = true ∧ attempt < MAX_RETRIES)) :
    retryGo op attempt (fuel + 1) = ⟨Except.error (RetryErr.js e), 1, []⟩ := by
  simp only [retryGo, hop]
  rw [if_neg hstop]

theorem retryGo_step_ok {α : Type} (op : Nat → Except JsError α)
    {attempt fuel : Nat} {v : α} (hop : op attempt = Except.ok v) :
    retryGo op attempt (fuel + 1) = ⟨Except.ok v, 1, []⟩ := by
  simp [retryGo, hop]

/-- C2 (amended): under permanent throttling `executeWithRetry` invokes the
operation 9 times (one initial attempt plus `MAX_RETRIES = 8` retries),
sleeping `2000 * 2^attempt` ms between consecutive attempts, and then
propagates the final throttling error itself — the
`new Error('Max retries exceeded')` after the loop is unreachable.  A
non-throttling first error propagates immediately after exactly one
invocation, and a success returns after one invocation. -/
theorem executeWithRetry_spec {α : Type} (op : Nat → Except JsError α) :
    ((∀ k, ∃ e, op k = Except.error e ∧ isRateLimitError e = true) →
      (executeWithRetry op).calls = 9 ∧
      (executeWithRetry op).delays = (List.range 8).map (fun k => RETRY_DELAY_MS * 2 ^ k) ∧
      ∃ e8, op 8 = Except.error e8 ∧
        (executeWithRetry op).result = Except.error (RetryErr.js e8)) ∧
    (∀ e, op 0 = Except.error e → isRateLimitError e = false →
      (executeWithRetry op).calls = 1 ∧
      (executeWithRetry op).result = Except.error (RetryErr.js e)) ∧
    (∀ v, op 0 = Except.ok v →
      (executeWithRetry op).calls = 1 ∧ (executeWithRetry op).result = Except.ok v) := by
  have hE : executeWithRetry op = retryGo op 0 9 := rfl
  refine ⟨?_, ?_, ?_⟩
  · intro hthr
    obtain ⟨e0, h0, r0⟩ := hthr 0
    obtain ⟨e1, h1, r1⟩ := hthr 1
    obtain ⟨e2, h2, r2⟩ := hthr 2
    obtain ⟨e3, h3, r3⟩ := hthr 3
    obtain ⟨e4, h4, r4⟩ := hthr 4
    obtain ⟨e5, h5, r5⟩ := hthr 5
    obtain ⟨e6, h6, r6⟩ := hthr 6
    obtain ⟨e7, h7, r7⟩ := hthr 7
    obtain ⟨e8, h8, r8⟩ := hthr 8
    have s8 : retryGo op 8 1 = ⟨Except.error (RetryErr.js e8), 1, []⟩ :=
      retryGo_step_stop op h8 (by simp [MAX_RETRIES])
    have s7 : retryGo op 7 2 = ⟨Except.error (RetryErr.js e8), 2,
        [RETRY_DELAY_MS * 2 ^ 7]⟩ := by
      rw [retryGo_step_throttle op h7 r7 (by decide), s8]
    have s6 : retryGo op 6 3 = ⟨Except.error (RetryErr.js e8), 3,
        [RETRY_DELAY_MS * 2 ^ 6, RETRY_DELAY_MS * 2 ^ 7]⟩ := by
      rw [retryGo_step_throttle op h6 r6 (by decide), s7]
    have s5 : retryGo op 5 4 = ⟨Except.error (RetryErr.js e8), 4,
        [RETRY_DELAY_MS * 2 ^ 5, RETRY_DELAY_MS * 2 ^ 6, RETRY_DELAY_MS * 2 ^ 7]⟩ := by
      rw [retryGo_step_throttle op h5 r5 (by decide), s6]
    have s4 : retryGo op 4 5 = ⟨Except.error (RetryErr.js e8), 5,
        [RETRY_DELAY_MS * 2 ^ 4, RETRY_DELAY_MS * 2 ^ 5, RETRY_DELAY_MS * 2 ^ 6,
          RETRY_DELAY_MS * 2 ^ 7]⟩ := by
      rw [retryGo_step_throttle op h4 r4 (by decide), s5]
    have s3 : retryGo op 3 6 = ⟨Except.error (RetryErr.js e8), 6,
        [RETRY_DELAY_MS * 2 ^ 3, RETRY_DELAY_MS * 2 ^ 4, RETRY_DELAY_MS * 2 ^ 5,
          RETRY_DELAY_MS * 2 ^ 6, RETRY_DELAY_MS * 2 ^ 7]⟩ := by
      rw [retryGo_step_throttle op h3 r3 (by decide), s4]
    have s2 : retryGo op 2 7 = ⟨Except.error (RetryErr.js e8), 7,
        [RETRY_DELAY_MS * 2 ^ 2, RETRY_DELAY_MS * 2 ^ 3, RETRY_DELAY_MS * 2 ^ 4,
          RETRY_DELAY_MS * 2 ^ 5, RETRY_DELAY_MS * 2 ^ 6, RETRY_DELAY_MS * 2 ^ 7]⟩ := by
      rw [retryGo_step_throttle op h2 r2 (by decide), s3]
    have s1 : retryGo op 1 8 = ⟨Except.error (RetryErr.js e8), 8,
        [RETRY_DELAY_MS * 2 ^ 1, RETRY_DELAY_MS * 2 ^ 2, RETRY_DELAY_MS * 2 ^ 3,
          RETRY_DELAY_MS * 2 ^ 4, RETRY_DELAY_MS * 2 ^ 5, RETRY_DELAY_MS * 2 ^ 6,
          RETRY_DELAY_MS * 2 ^ 7]⟩ := by
      rw [retryGo_step_throttle op h1 r1 (by decide), s2]
    have s0 : retryGo op 0 9 = ⟨Except.error (RetryErr.js e8), 9,
        [RETRY_DELAY_MS * 2 ^ 0, RETRY_DELAY_MS * 2 ^ 1, RETRY_DELAY_MS * 2 ^ 2,
          RETRY_DELAY_MS * 2 ^ 3, RETRY_DELAY_MS * 2 ^ 4, RETRY_DELAY_MS * 2 ^ 5,
          RETRY_DELAY_MS * 2 ^ 6, RETRY_DELAY_MS * 2 ^ 7]⟩ := by
      rw [retryGo_step_throttle op h0 r0 (by decide), s1]
    rw [hE, s0]
    exact ⟨rfl, rfl, e8, h8, rfl⟩
  · intro e h0 hnr
    have s : retryGo op 0 9 = ⟨Except.error (RetryErr.js e), 1, []⟩ :=
      retryGo_step_stop op h0 (by simp [hnr])
    rw [hE, s]
    exact ⟨rfl, rfl⟩
  · intro v h0
    have s : retryGo op 0 9 = ⟨Except.ok v, 1, []⟩ := retryGo_step_ok op h0
    rw [hE, s]
    exact ⟨rfl, rfl⟩

/-- C2 (counterexample): a permanently throttling operation (HTTP 429) is
invoked 9 times, not at most 8, and what finally propagates is the last
throttling error, not a 'max retries exceeded' failure. -/
theorem retry_count_counterexample :
    (executeWithRetry fun _ => (Except.error c429 : Except JsError Unit)).calls = 9 ∧
    ¬ (executeWithRetry fun _ => (Except.error c429 : Except JsError Unit)).calls ≤ 8 ∧
    (executeWithRetry fun _ => (Except.error c429 : Except JsError Unit)).result =
      Except.error (RetryErr.js c429) ∧
    (executeWithRetry fun _ => (Except.error c429 : Except JsError Unit)).result ≠
      Except.error RetryErr.maxRetriesExceeded := by
  have hres : (executeWithRetry fun _ => (Except.error c429 : Except JsError Unit)).result =
      Except.error (RetryErr.js c429) := rfl
  refine ⟨rfl, by decide, hres, ?_⟩
  rw [hres]
  simp

/-- C2 (witness): the amended retry behaviour at the concrete
always-throttling operation. -/
theorem executeWithRetry_spec_witness :
    (executeWithRetry fun _ => (Except.error c429 : Except JsError Unit)).calls = 9 ∧
    (executeWithRetry fun _ => (Except.error c429 : Except JsError Unit)).delays =
      (List.range 8).map (fun k => RETRY_DELAY_MS * 2 ^ k) ∧
    ∃ e8, (fun _ => (Except.error c429 : Except JsError Unit)) 8 = Except.error e8 ∧
      (executeWithRetry fun _ => (Except.error c429 : Except JsError Unit)).result =
        Except.error (RetryErr.js e8) :=
  (executeWithRetry_spec fun _ => (Except.error c429 : Except JsError Unit)).1
    (fun _ => ⟨c429, rfl, by decide⟩)

/-- C4: when the stored range fully contains the request, the request is
well-formed, and the store holds a point for every day of it, the
resolution returns the stored points for the window and leaves the world
untouched — in particular no upstream fetch, lock operation, or write
happens. -/
theorem full_coverage_no_upstream (p1 p2 : Day) (w : World) (o n : Day)
    (hser : w.series = some (some o, some n)) (hsf : w.storeFaults = [])
    (h1 : o ≤ p1) (h2 : p2 ≤ n) (hle : p1 ≤ p2)
    (hcov : ∀ d : Day, p1 ≤ d → d ≤ p2 → ∃ q ∈ w.points, q.date = d) :
    getChartData p1 p2 w = (Except.ok (getPointsPure w.points p1 p2), w) := by
  have hr : getStoredRange w = (Except.ok (some (some o, some n)), w) := by
    rw [getStoredRange_ok hsf, hser]
  have hne : getPointsPure w.points p1 p2 ≠ [] :=
    getPointsPure_ne_nil hle (hcov p1 (le_refl p1) hle)
  have hc : hasCompleteCoverage (some o, some n) p1 p2 (getPointsPure w.points p1 p2) = true := by
    cases hxe : getPointsPure w.points p1 p2 with
    | nil => exact absurd hxe hne
    | cons a l => simp [hasCompleteCoverage, h1, h2]
  unfold getChartData
  simp only [bind_eStep, eBind_ok (ensure_ok hsf), eBind_ok hr,
    eBind_ok (getPoints_ok hsf p1 p2)]
  rw [if_pos hc]
  rfl

/-- C4 (witness): full coverage at a concrete world. -/
theorem full_coverage_no_upstream_witness :
    getChartData 5 5 cw4 = (Except.ok (getPointsPure cw4.points 5 5), cw4) :=
  full_coverage_no_upstream 5 5 cw4 4 6 rfl rfl (by decide) (by decide) (by decide)
    (fun d hd1 hd2 => ⟨⟨5, some 2⟩, by decide, (le_antisymm hd2 hd1).symm⟩)

/-- C5: over any sequence of `updateRange` calls the stored `oldestDate`
never increases and the stored `newestDate` never decreases; a null
argument leaves the corresponding bound unchanged, and a null stored bound
adopts the argument outright. -/
theorem updateRange_monotone (init : Option Day × Option Day)
    (calls : List (Option Day × Option Day)) :
    (∀ o, init.1 = some o → ∃ o', (applyWidens init calls).1 = some o' ∧ o' ≤ o) ∧
    (∀ n, init.2 = some n → ∃ n', (applyWidens init calls).2 = some n' ∧ n ≤ n') ∧
    (∀ (rn : Option Day × Option Day) (b : Option Day), (widenPair rn (none, b)).1 = rn.1) ∧
    (∀ (rn : Option Day × Option Day) (a : Option Day), (widenPair rn (a, none)).2 = rn.2) ∧
    (∀ a b : Option Day, widenOldest none a = a ∧ widenNewest none b = b) := by
  refine ⟨?_, ?_, ?_, ?_, ?_⟩
  · induction calls generalizing init with
    | nil => intro o h; exact ⟨o, by simpa [applyWidens] using h, le_refl o⟩
    | cons c rest ih =>
      intro o h
      obtain ⟨o1, ho1, hle1⟩ := widenOldest_le (o := o) (a := c.1)
      obtain ⟨o', ho', hle'⟩ := ih (widenPair init c) o1 (by simp [widenPair, h, ho1])
      exact ⟨o', by simpa [applyWidens] using ho', le_trans hle' hle1⟩
  · induction calls generalizing init with
    | nil => intro n h; exact ⟨n, by simpa [applyWidens] using h, le_refl n⟩
    | cons c rest ih =>
      intro n h
      obtain ⟨n1, hn1, hle1⟩ := widenNewest_ge (n := n) (a := c.2)
      obtain ⟨n', hn', hle'⟩ := ih (widenPair init c) n1 (by simp [widenPair, h, hn1])
      exact ⟨n', by simpa [applyWidens] using hn', le_trans hle1 hle'⟩
  · intro rn b
    cases h : rn.1 <;> simp [widenPair, widenOldest, h]
  · intro rn a
    cases h : rn.2 <;> simp [widenPair, widenNewest, h]
  · intro a b
    exact ⟨rfl, rfl⟩

/-- C5 (witness): monotonicity at a concrete sequence of widen calls. -/
theorem updateRange_monotone_witness :
    ∃ o', (applyWidens (some 5, some 5) [(some 3, none), (none, some 9)]).1 = some o' ∧
      o' ≤ 5 :=
  (updateRange_monotone (some 5, some 5) [(some 3, none), (none, some 9)]).1 5 rfl

/-- C6: with a healthy store, a warm resolution (series row present) never
raises whatever the upstream and the coordination layer do; a cold-start
upstream failure propagates as-is; and a cold-start fetch sanitizing to
zero points returns the empty sequence without error. -/
theorem getChartData_error_policy (p1 p2 : Day) (w : World) (hsf : w.storeFaults = []) :
    (∀ rn, w.series = some rn → ∃ pts w', getChartData p1 p2 w = (Except.ok pts, w')) ∧
    (∀ e, w.series = none → w.fetchFn p1 p2 = Except.error e →
      ∃ w', getChartData p1 p2 w = (Except.error e, w')) ∧
    (∀ qs, w.series = none → w.fetchFn p1 p2 = Except.ok qs → sanitizeQuotes qs = [] →
      ∃ w', getChartData p1 p2 w = (Except.ok [], w')) := by
  refine ⟨?_, ?_, ?_⟩
  · intro rn hser
    obtain ⟨pts, w', heq, -, -, -, -⟩ := getChartData_warm p1 p2 w rn hser hsf
    exact ⟨pts, w', heq⟩
  · intro e hser hf
    rw [getChartData_cold_eq p1 p2 hser hsf, coldStart_err hf]
    exact ⟨_, rfl⟩
  · intro qs hser hf hq
    rw [getChartData_cold_eq p1 p2 hser hsf, coldStart_empty hf hq]
    exact ⟨_, rfl⟩

/-- C6 (witness): a concrete cold-start upstream failure propagates. -/
theorem getChartData_error_policy_witness :
    ∃ w', getChartData 1 2 cw6 = (Except.error (Err.upstream 7), w') :=
  (getChartData_error_policy 1 2 cw6 rfl).2.1 (Err.upstream 7) rfl rfl

/-- C7: with stored range `[2024-02-01, 2024-02-10]` (days 19754..19763),
no marker, and a free lock, resolving `[2024-01-25, 2024-02-05]` (days
19747..19758) issues exactly one upstream fetch, for `[2024-01-25,
2024-01-31]` (days 19747..19753); that fetch returns zero points, so the
no-older-data marker is set, and an identical resolve while the marker is
present issues no further fetch. -/
theorem older_edge_negative_cache :
    cw7after.trace.filter isFetchEv = [Ev.fetch 19747 19753] ∧
    cw7after.noOlder = true ∧
    ((getChartData 19747 19758 cw7after).2).trace.filter isFetchEv =
      [Ev.fetch 19747 19753] := by
  exact ⟨rfl, rfl, rfl⟩

/-- C8 (counterexample): on the cold-start path the sanitized upstream
quotes are returned exactly as fetched, with no sorting or range filter, so
an out-of-order upstream response yields an unsorted result. -/
theorem cold_unsorted_counterexample :
    (getChartData 0 10 cw8).1 = Except.ok [⟨5, none⟩, ⟨3, none⟩] ∧
    ¬ List.Sorted ptLE [(⟨5, none⟩ : Point), ⟨3, none⟩] := by
  refine ⟨rfl, ?_⟩
  intro h
  have h53 : ptLE ⟨5, none⟩ ⟨3, none⟩ := List.rel_of_sorted_cons h _ (by simp)
  simp [ptLE] at h53

/-- C8 (amended): on the warm path the returned sequence is sorted
ascending by date, has at most one entry per date, and contains only dates
in `[from, to]`; `mergePoints` resolves date collisions in favour of the
newly fetched points; and on the cold-start path the sequence is the
sanitized upstream quotes as fetched. -/
theorem getChartData_result_shape (p1 p2 : Day) (w : World) (rn : Option Day × Option Day)
    (hser : w.series = some rn) (hsf : w.storeFaults = []) (hnd : keysNodup w.points) :
    (∃ pts w', getChartData p1 p2 w = (Except.ok pts, w') ∧
      List.Sorted ptLE pts ∧ keysNodup pts ∧ ∀ q ∈ pts, p1 ≤ q.date ∧ q.date ≤ p2) ∧
    (∀ existing newPts (q : Point), q ∈ mergePoints existing newPts →
      q ∈ newPts ∨ (q ∈ existing ∧ ∀ r ∈ newPts, r.date ≠ q.date)) ∧
    (∀ w2 : World, w2.series = none → w2.storeFaults = [] →
      ∀ qs, w2.fetchFn p1 p2 = Except.ok qs → sanitizeQuotes qs ≠ [] →
        ∃ w', getChartData p1 p2 w2 = (Except.ok (sanitizeQuotes qs), w')) := by
  refine ⟨?_, fun e n q h => mergePoints_mem e n h, ?_⟩
  · obtain ⟨pts, w', heq, -, hsort, hnodup, hrange⟩ := getChartData_warm p1 p2 w rn hser hsf
    exact ⟨pts, w', heq, hsort, hnodup hnd, hrange⟩
  · intro w2 hser2 hsf2 qs hf hq
    rw [getChartData_cold_eq p1 p2 hser2 hsf2]
    exact coldStart_ok hsf2 hf hq

/-- C8 (witness): the amended result shape at a concrete warm world. -/
theorem getChartData_result_shape_witness :
    (∃ pts w', getChartData 5 6 cw8w = (Except.ok pts, w') ∧
      List.Sorted ptLE pts ∧ keysNodup pts ∧ ∀ q ∈ pts, 5 ≤ q.date ∧ q.date ≤ 6) ∧
    (∀ existing newPts (q : Point), q ∈ mergePoints existing newPts →
      q ∈ newPts ∨ (q ∈ existing ∧ ∀ r ∈ newPts, r.date ≠ q.date)) ∧
    (∀ w2 : World, w2.series = none → w2.storeFaults = [] →
      ∀ qs, w2.fetchFn 5 6 = Except.ok qs → sanitizeQuotes qs ≠ [] →
        ∃ w', getChartData 5 6 w2 = (Except.ok (sanitizeQuotes qs), w')) :=
  getChartData_result_shape 5 6 cw8w (some 5, some 6) rfl rfl
    (by simp [keysNodup, keys, cw8w])

/-- C9: the min/max merge of `updateRange` is commutative and idempotent on
the stored range. -/
theorem updateRange_commutative_idempotent :
    (∀ (rn b1 b2 : Option Day × Option Day),
      widenPair (widenPair rn b1) b2 = widenPair (widenPair rn b2) b1) ∧
    (∀ (rn b : Option Day × Option Day), widenPair (widenPair rn b) b = widenPair rn b) := by
  constructor
  · intro rn b1 b2
    simp only [widenPair]
    rw [widenOldest_comm_assoc, widenNewest_comm_assoc]
  · intro rn b
    simp only [widenPair]
    rw [widenOldest_idem, widenNewest_idem]

/-- C10: every `getChartData` run extends the trace by a segment with
exactly as many granted lock acquisitions as lock releases (every granted
acquire is paired with a release before the call finishes, even when the
fetch or the persistence of its results throws inside the region), and
under a healthy Redis a free lock is free again when the call ends. -/
theorem getChartData_lock_discipline (p1 p2 : Day) (w : World) :
    (∃ evs, ((getChartData p1 p2 w).2).trace = w.trace ++ evs ∧
      evs.countP isGrantEv = evs.countP isRelEv) ∧
    (w.redisFaults = [] ∧ w.lockHeld = false →
      ((getChartData p1 p2 w).2).lockHeld = false) := by
  have h := gstep_getChartData p1 p2 w
  exact ⟨h.tr, fun hc => (h.lockfree hc).2⟩

/-- C10 (witness): the lock is free after a concrete warm resolution. -/
theorem getChartData_lock_discipline_witness :
    ((getChartData 19747 19758 cw10).2).lockHeld = false :=
  (getChartData_lock_discipline 19747 19758 cw10).2 ⟨rfl, rfl⟩

end YahooCache
